import Mathlib

/-!
# Order ingestion service (`L0/main.go`)

A shallow embedding of the order service: the data model, `validateOrder`,
the store functions `saveOrderToDB` / `getFromDB`, the `orders_1` subscription
handler and the `/order` HTTP handler, followed by theorems about them.

Conventions of the embedding:

* Go `string` is `String`, Go `int` / `int64` is `Int` (no arithmetic is performed
  on any numeric field), `[]Item` is `List Item`.
* A Go `error` result is an `Option` (`none` is `nil`) or an `Except`.
* The process-wide `cache map[string]Order` and the `orders` table are threaded
  through as an explicit `State`.
* `encoding/json`, the SQL backend and the broker client are external to the
  program: the JSON functions are a `Codec` parameter, with `jsonCodec` as the model
  of the library on `Order`; backend errors are an explicit input of every database
  call; and the broker's delivery wrapper is modelled separately from the handler
  it calls.
-/

namespace L0

/-! ## Data model (`main.go` lines 19-71) -/

structure Delivery where
  Name : String := ""
  Phone : String := ""
  Zip : String := ""
  City : String := ""
  Address : String := ""
  Region : String := ""
  Email : String := ""
deriving DecidableEq, Repr, Inhabited

structure Payment where
  Transaction : String := ""
  RequestID : String := ""
  Currency : String := ""
  Provider : String := ""
  Amount : Int := 0
  PaymentDT : Int := 0
  Bank : String := ""
  DeliveryCost : Int := 0
  GoodsTotal : Int := 0
  CustomFee : Int := 0
deriving DecidableEq, Repr, Inhabited

structure Item where
  ChrtID : Int := 0
  TrackNumber : String := ""
  Price : Int := 0
  RID : String := ""
  Name : String := ""
  Sale : Int := 0
  Size : String := ""
  TotalPrice : Int := 0
  NmID : Int := 0
  Brand : String := ""
  Status : Int := 0
deriving DecidableEq, Repr, Inhabited

structure Order where
  OrderUID : String := ""
  TrackNumber : String := ""
  Entry : String := ""
  Delivery : Delivery := {}
  Payment : Payment := {}
  Items : List Item := []
  Locale : String := ""
  InternalSig : String := ""
  CustomerID : String := ""
  DeliveryService : String := ""
  ShardKey : String := ""
  SMID : Int := 0
  DateCreated : String := ""
  OOFShard : String := ""
deriving DecidableEq, Repr, Inhabited

/-! ## Validation (`main.go` lines 74-92) -/

/-- The function `validateOrder`: `.ok ()` is the `nil` error, `.error msg` is
`errors.New(msg)`. -/
def validateOrder (order : Order) : Except String Unit :=
  if order.OrderUID = "" then
    .error "OrderUID field is required"
  else if order.TrackNumber = "" then
    .error "TrackNumber field is required"
  else if order.Delivery.Name = "" then
    .error "Delivery Name field is required"
  else if order.Delivery.Phone = "" then
    .error "Delivery Phone field is required"
  else if order.Delivery.Zip = "" then
    .error "Delivery Zip field is required"
  else
    .ok ()

/-! ## External collaborators -/

/-- The two `encoding/json` entry points the program applies to `Order`:
`json.Marshal(order)` and `json.Unmarshal(data, &order)`. The library is not part of
the program, so both are parameters of every function that calls them. -/
structure Codec where
  marshal : Order → Except String String
  unmarshal : String → Except String Order

/-- Errors coming back from `database/sql`: the sentinel `sql.ErrNoRows`, which
`saveOrderToDB` compares against, and any other error, carried as its text. -/
inductive DbError where
  | ErrNoRows
  | other (msg : String)
deriving DecidableEq, Repr

/-- The text `%v` prints for an error value (`<nil>` for the nil error). -/
def errText : Option DbError → String
  | none => "<nil>"
  | some .ErrNoRows => "sql: no rows in result set"
  | some (.other msg) => msg

/-- Modelled from the spec: the schema of the `orders` table is not among the sources;
section 6 has it as a table keyed by `order_uid` (unique) storing the order's
serialized document. The table is the list of its rows `(order_uid, "order")` in
insertion order. -/
structure DB where
  rows : List (String × String)
deriving DecidableEq, Repr

/-- Backend errors injected into the database calls of one `saveOrderToDB` run: one
for the `SELECT` issued through `getFromDB`, one for the `INSERT`. `none` means the
backend answers the statement. -/
structure Faults where
  onQuery : Option String := none
  onInsert : Option String := none
deriving DecidableEq, Repr

/-- The `SELECT` of `getFromDB`, `db.QueryRow(..., orderUID).Scan(&orderJSON)`: a
backend error if one is injected, `sql.ErrNoRows` when no row has the key, otherwise
the document of the first row with the key. -/
def DB.queryRow (db : DB) (fault : Option String) (orderUID : String) :
    Except DbError String :=
  match fault with
  | some msg => .error (.other msg)
  | none =>
    match db.rows.lookup orderUID with
    | none => .error .ErrNoRows
    | some orderJSON => .ok orderJSON

/-- The `INSERT` of `saveOrderToDB`, `db.Exec(..., order.OrderUID, orderJSON)`: a
backend error if one is injected, a rejection when the key - unique in the schema -
is already taken, otherwise the table with the new row appended. A statement that
returns an error leaves the table as it was. -/
def DB.execInsert (db : DB) (fault : Option String) (orderUID orderJSON : String) :
    Except String DB :=
  match fault with
  | some msg => .error msg
  | none =>
    if (db.rows.lookup orderUID).isSome then
      .error "pq: duplicate key value violates unique constraint"
    else
      .ok { rows := db.rows ++ [(orderUID, orderJSON)] }

/-- Number of rows stored under a key. -/
def DB.count (db : DB) (orderUID : String) : Nat :=
  db.rows.countP (fun row => row.1 = orderUID)

/-! ## Store functions (`main.go` lines 198-242) -/

/-- The function `getFromDB`: the pair `(Order, error)` it returns. On any error the
order is the zero value `Order{}`. -/
def getFromDB (codec : Codec) (fault : Option String) (db : DB) (orderUID : String) :
    Order × Option DbError :=
  match db.queryRow fault orderUID with
  | .error err => ({}, some err)
  | .ok orderJSON =>
    match codec.unmarshal orderJSON with
    | .error err => ({}, some (.other ("error unmarshaling JSON: " ++ err)))
    | .ok order => (order, none)

/-- The function `saveOrderToDB`: the table after the call and the returned error
(`none` is `nil`). -/
def saveOrderToDB (codec : Codec) (faults : Faults) (db : DB) (order : Order) :
    DB × Option String :=
  let (existingOrder, err) := getFromDB codec faults.onQuery db order.OrderUID
  if err ≠ none ∧ err ≠ some .ErrNoRows then
    (db, some ("error checking if order exists in database: " ++ errText err))
  else if existingOrder.OrderUID ≠ "" then
    (db, some ("order with ID " ++ order.OrderUID ++ " already exists in the database"))
  else
    match codec.marshal order with
    | .error e => (db, some ("error marshaling order to JSON: " ++ e))
    | .ok orderJSON =>
      match db.execInsert faults.onInsert order.OrderUID orderJSON with
      | .error e => (db, some ("error inserting order into database: " ++ e))
      | .ok db' => (db', none)

/-! ## Process state -/

/-- The global `cache map[string]Order`: a Go map holds at most one entry per key, so
it is a partial function from keys to orders. -/
abbrev Cache := String → Option Order

/-- The map made by `make(map[string]Order)`. -/
def Cache.empty : Cache := fun _ => none

/-- The assignment `cache[k] = v`. -/
def Cache.set (c : Cache) (k : String) (v : Order) : Cache :=
  fun k' => if k' = k then some v else c k'

/-- What the two handlers read and write: the `orders` table behind `db` and the
global `cache`. -/
structure State where
  db : DB
  cache : Cache

/-- State at process start against an empty table. -/
def State.initial : State := { db := { rows := [] }, cache := Cache.empty }

/-! ## The `orders_1` subscription handler (`main.go` lines 136-158) -/

/-- The return path a handler run takes; the first three carry the error it logs. -/
inductive Outcome where
  | decodeError (err : String)
  | invalid (err : String)
  | saveError (err : String)
  | stored
deriving DecidableEq, Repr

/-- The callback passed to `sc.Subscribe("orders_1", ...)`, run on payload `data`. -/
def handler (codec : Codec) (faults : Faults) (data : String) (st : State) :
    Outcome × State :=
  match codec.unmarshal data with
  | .error err => (.decodeError err, st)
  | .ok order =>
    match validateOrder order with
    | .error err => (.invalid err, st)
    | .ok () =>
      match saveOrderToDB codec faults st.db order with
      | (db, some err) => (.saveError err, { st with db := db })
      | (db, none) => (.stored, { db := db, cache := st.cache.set order.OrderUID order })

/-- What a delivery does that can be observed from outside the callback, in the order
in which it happens: the two SQL statements, the log lines, the cache assignment, and
the acknowledgement sent to the broker. -/
inductive Effect where
  | select (orderUID : String)
  | insert (orderUID orderJSON : String)
  | log (line : String)
  | cacheSet (orderUID : String)
  | ack
deriving DecidableEq, Repr

/-- The statements one `saveOrderToDB` call issues, in order: always the `SELECT` of
`getFromDB`, then the `INSERT` when the call gets as far as `db.Exec`. -/
def saveOrderToDBEffects (codec : Codec) (faults : Faults) (db : DB) (order : Order) :
    List Effect :=
  let (existingOrder, err) := getFromDB codec faults.onQuery db order.OrderUID
  if err ≠ none ∧ err ≠ some .ErrNoRows then
    [.select order.OrderUID]
  else if existingOrder.OrderUID ≠ "" then
    [.select order.OrderUID]
  else
    match codec.marshal order with
    | .error _ => [.select order.OrderUID]
    | .ok orderJSON => [.select order.OrderUID, .insert order.OrderUID orderJSON]

/-- The effects of one run of the callback, in program order. The callback contains
no `msg.Ack()` call, so no path produces `Effect.ack`. -/
def handlerEffects (codec : Codec) (faults : Faults) (data : String) (st : State) :
    List Effect :=
  match codec.unmarshal data with
  | .error err => [.log ("Error decoding message: " ++ err)]
  | .ok order =>
    match validateOrder order with
    | .error err => [.log ("Invalid order: " ++ err)]
    | .ok () =>
      saveOrderToDBEffects codec faults st.db order ++
        match (saveOrderToDB codec faults st.db order).2 with
        | some err => [.log ("Error saving order to database: " ++ err)]
        | none => [.cacheSet order.OrderUID]

/-- Options of a broker subscription that matter here. `sc.Subscribe` starts from the
defaults, in which `ManualAcks` is off, and applies the options it is given. -/
structure SubscriptionOptions where
  DurableName : String := ""
  ManualAcks : Bool := false
deriving DecidableEq, Repr

/-- An option as passed to `sc.Subscribe`: a function that edits the options. -/
abbrev SubscriptionOption := SubscriptionOptions → SubscriptionOptions

/-- The option `stan.DurableName(name)`. -/
def DurableName (name : String) : SubscriptionOption :=
  fun o => { o with DurableName := name }

/-- The option `stan.SetManualAckMode()`, which the program does not pass. -/
def SetManualAckMode : SubscriptionOption :=
  fun o => { o with ManualAcks := true }

/-- The options the program subscribes with: `stan.DurableName("orders-service")` is
the only option passed to `sc.Subscribe`. -/
def subscriptionOptions : SubscriptionOptions :=
  [DurableName "orders-service"].foldl (fun o opt => opt o) {}

/-- Result of the broker client dispatching one message to the callback: the path the
callback took, the state it left, everything that happened in order, and whether
the message was acknowledged. -/
structure Delivered where
  outcome : Outcome
  state : State
  trace : List Effect
  acked : Bool

/-- One delivery on the subscription. The broker client library is external; by its
documented default it acknowledges a message itself after the subscriber's callback
has been invoked, and leaves acknowledging to the callback only when the
subscription was opened in manual acknowledgement mode. So the trace of a delivery is
the trace of the callback, followed by the acknowledgement unless the mode is
manual. -/
def deliver (opts : SubscriptionOptions) (codec : Codec) (faults : Faults)
    (data : String) (st : State) : Delivered :=
  let result := handler codec faults data st
  let trace := handlerEffects codec faults data st ++
    (if opts.ManualAcks then [] else [Effect.ack])
  { outcome := result.1, state := result.2, trace := trace,
    acked := decide (Effect.ack ∈ trace) }

/-! ## The `/order` HTTP handler (`main.go` lines 165-188) -/

/-- An HTTP request, reduced to the parsed query string `r.URL.Query()`: the
`key=value` pairs in the order they appear in the URL. -/
structure Request where
  query : List (String × String)
deriving DecidableEq, Repr

/-- The call `r.URL.Query().Get(key)`: the first value of the key, `""` if absent. -/
def Request.get (r : Request) (key : String) : String :=
  (r.query.lookup key).getD ""

/-- What a handler run leaves on the response writer. -/
structure Response where
  status : Nat
  body : String
deriving DecidableEq, Repr

/-- The call `http.Error(w, msg, code)`. -/
def httpError (msg : String) (code : Nat) : Response :=
  { status := code, body := msg ++ "\n" }

/-- The call `json.NewEncoder(w).Encode(order)` on a fresh response writer: status 200
and the document followed by a newline (nothing is written if encoding fails; the
handler ignores the returned error). -/
def encodeOrder (codec : Codec) (order : Order) : Response :=
  match codec.marshal order with
  | .ok doc => { status := 200, body := doc ++ "\n" }
  | .error _ => { status := 200, body := "" }

/-- The handler registered for `/order`. -/
def orderHandler (codec : Codec) (fault : Option String) (r : Request) (st : State) :
    Response × State :=
  let orderUID := r.get "order_uid"
  if orderUID = "" then
    (httpError "Missing order_uid parameter" 400, st)
  else
    match st.cache orderUID with
    | some order => (encodeOrder codec order, st)
    | none =>
      match getFromDB codec fault st.db orderUID with
      | (_, some _) => (httpError "Order not found" 404, st)
      | (order, none) =>
        (encodeOrder codec order, { st with cache := st.cache.set orderUID order })

/-! ## The system as a transition function -/

/-- One step of the running process: a message delivered on the subscription, or an
HTTP request to `/order`, each with the backend errors it meets. -/
inductive Event where
  | message (faults : Faults) (data : String)
  | request (fault : Option String) (r : Request)

/-- The state after one step. -/
def step (codec : Codec) (ev : Event) (st : State) : State :=
  match ev with
  | .message faults data => (deliver subscriptionOptions codec faults data st).state
  | .request fault r => (orderHandler codec fault r st).2

/-- The state after a sequence of steps. -/
def run (codec : Codec) (evs : List Event) (st : State) : State :=
  evs.foldl (fun s ev => step codec ev s) st

/-! ## The JSON codec

A model of the two `encoding/json` entry points on the type `Order`, written from the
package documentation and from the `json` tags of the four structs.

* Encoding (`json.Marshal`): compact text, one member per struct field in declaration
  order, named by the field's tag; strings escaped the way `Marshal` escapes them;
  integers in decimal; a nil slice as `null`.
* Decoding (`json.Unmarshal`): the input has to be one JSON value, with whitespace
  allowed around every token and nesting up to 10000 levels, and nothing but
  whitespace after it. An object is stored into the struct member by member: a name
  selects the field with that tag, or else the field whose tag equals it up to case;
  other names are ignored; a later member overrides an earlier one; `null` leaves a
  field as it is and empties a slice; a value of the wrong kind is an error.
* Limits of the model: strings are Unicode text, so byte strings that are not valid
  UTF-8 have no counterpart; the integer fields are unbounded, so there is no range
  check; a nil and an empty slice are the same list; the elements of a repeated
  `items` member are stored into the elements read before. -/

namespace Json

/-- A parser consumes the start of the input and returns the value read together with
the rest of the input. -/
abbrev Parser (α : Type) := List Char → Option (α × List Char)

/-! Punctuation and control characters, by code point. -/

def quote : Char := Char.ofNat 34
def backslash : Char := Char.ofNat 92
def slash : Char := Char.ofNat 47
def comma : Char := Char.ofNat 44
def colon : Char := Char.ofNat 58
def minus : Char := Char.ofNat 45
def plus : Char := Char.ofNat 43
def dot : Char := Char.ofNat 46
def lbrace : Char := Char.ofNat 123
def rbrace : Char := Char.ofNat 125
def lbracket : Char := Char.ofNat 91
def rbracket : Char := Char.ofNat 93
def replacement : Char := Char.ofNat 65533

/-! ### Encoding (`json.Marshal`) -/

/-- The hexadecimal digit `d`, lower case. -/
def hexDigit (d : Nat) : Char :=
  if d < 10 then Char.ofNat (48 + d) else Char.ofNat (87 + d)

/-- One character of a string literal as `json.Marshal` writes it: quote and
backslash behind a backslash; backspace, form feed, line feed, carriage return and
tab as their two-character escapes; the other control characters and the three
characters less-than, greater-than and ampersand as a `u00XX` escape; the line and
paragraph separators U+2028 and U+2029 as `u2028` and `u2029` escapes; every other
character as itself. (Releases before the two-character escapes for backspace and
form feed write those two in the `u00XX` form, which decodes to the same
character.) -/
def escapeChar (c : Char) : List Char :=
  if c = quote ∨ c = backslash then [backslash, c]
  else if c = Char.ofNat 8 then [backslash, 'b']
  else if c = Char.ofNat 12 then [backslash, 'f']
  else if c = Char.ofNat 10 then [backslash, 'n']
  else if c = Char.ofNat 13 then [backslash, 'r']
  else if c = Char.ofNat 9 then [backslash, 't']
  else if c.toNat < 32 ∨ c = Char.ofNat 60 ∨ c = Char.ofNat 62 ∨ c = Char.ofNat 38 then
    [backslash, 'u', '0', '0', hexDigit (c.toNat / 16), hexDigit (c.toNat % 16)]
  else if c = Char.ofNat 8232 then [backslash, 'u', '2', '0', '2', '8']
  else if c = Char.ofNat 8233 then [backslash, 'u', '2', '0', '2', '9']
  else [c]

/-- The contents of a string literal. -/
def escape : List Char → List Char
  | [] => []
  | c :: cs => escapeChar c ++ escape cs

/-- A JSON string literal. -/
def encString (s : String) : List Char := quote :: (escape s.data ++ [quote])

/-- The decimal digit `d` as a character. -/
def digitChar (d : Nat) : Char := Char.ofNat (48 + d)

/-- A natural number in decimal, most significant digit first. -/
def encNat (n : Nat) : List Char :=
  if n = 0 then [digitChar 0] else (Nat.digits 10 n).reverse.map digitChar

/-- An integer as `json.Marshal` writes an `int` or `int64`. -/
def encInt (i : Int) : List Char :=
  if i < 0 then minus :: encNat i.natAbs else encNat i.natAbs

/-- The members of an object after the opening brace: `"name":value`, separated by
commas, closed by the brace. -/
def encMembers : String × List Char → List (String × List Char) → List Char
  | m, [] => encString m.1 ++ colon :: (m.2 ++ [rbrace])
  | m, m2 :: ms => encString m.1 ++ colon :: (m.2 ++ comma :: encMembers m2 ms)

/-- A struct: one member per field, given as its name and its encoded value. -/
def encObject : List (String × List Char) → List Char
  | [] => [lbrace, rbrace]
  | m :: ms => lbrace :: encMembers m ms

/-- The elements of an array after the opening bracket. -/
def encElems : List Char → List (List Char) → List Char
  | e, [] => e ++ [rbracket]
  | e, e2 :: es => e ++ comma :: encElems e2 es

/-- A slice with at least one element. -/
def encArray : List (List Char) → List Char
  | [] => [lbracket, rbracket]
  | e :: es => lbracket :: encElems e es

def encDelivery (d : Delivery) : List Char :=
  encObject [("name", encString d.Name), ("phone", encString d.Phone),
    ("zip", encString d.Zip), ("city", encString d.City),
    ("address", encString d.Address), ("region", encString d.Region),
    ("email", encString d.Email)]

def encPayment (p : Payment) : List Char :=
  encObject [("transaction", encString p.Transaction),
    ("request_id", encString p.RequestID), ("currency", encString p.Currency),
    ("provider", encString p.Provider), ("amount", encInt p.Amount),
    ("payment_dt", encInt p.PaymentDT), ("bank", encString p.Bank),
    ("delivery_cost", encInt p.DeliveryCost), ("goods_total", encInt p.GoodsTotal),
    ("custom_fee", encInt p.CustomFee)]

def encItem (it : Item) : List Char :=
  encObject [("chrt_id", encInt it.ChrtID), ("track_number", encString it.TrackNumber),
    ("price", encInt it.Price), ("rid", encString it.RID), ("name", encString it.Name),
    ("sale", encInt it.Sale), ("size", encString it.Size),
    ("total_price", encInt it.TotalPrice), ("nm_id", encInt it.NmID),
    ("brand", encString it.Brand), ("status", encInt it.Status)]

/-- The `Items` slice. The embedding does not tell a nil slice from an empty one; the
empty list is written as `null`, which is what `json.Marshal` writes for the `Items`
of the zero `Order` and of any order decoded from a payload without `items`. -/
def encItems : List Item → List Char
  | [] => ['n', 'u', 'l', 'l']
  | it :: its => encArray ((it :: its).map encItem)

def encOrder (o : Order) : List Char :=
  encObject [("order_uid", encString o.OrderUID),
    ("track_number", encString o.TrackNumber), ("entry", encString o.Entry),
    ("delivery", encDelivery o.Delivery), ("payment", encPayment o.Payment),
    ("items", encItems o.Items), ("locale", encString o.Locale),
    ("internal_signature", encString o.InternalSig),
    ("customer_id", encString o.CustomerID),
    ("delivery_service", encString o.DeliveryService),
    ("shardkey", encString o.ShardKey), ("sm_id", encInt o.SMID),
    ("date_created", encString o.DateCreated), ("oof_shard", encString o.OOFShard)]

/-! ### Parsing JSON text -/

/-- A parsed JSON value. A number keeps its literal; a string is already unescaped. -/
inductive Value where
  | null
  | bool (b : Bool)
  | number (lit : List Char)
  | string (s : List Char)
  | array (elems : List Value)
  | object (members : List (List Char × Value))

/-- JSON whitespace: space, tab, line feed, carriage return. -/
def isWs (c : Char) : Bool :=
  c.toNat = 32 || c.toNat = 9 || c.toNat = 10 || c.toNat = 13

def skipWs : List Char → List Char
  | [] => []
  | c :: cs => if isWs c then skipWs cs else c :: cs

/-- Consume exactly the given characters. -/
def pLit : List Char → Parser Unit
  | [], cs => some ((), cs)
  | _ :: _, [] => none
  | l :: ls, c :: cs => if l = c then pLit ls cs else none

/-- The value of a hexadecimal digit, either case. -/
def hexVal (c : Char) : Option Nat :=
  if 48 ≤ c.toNat ∧ c.toNat ≤ 57 then some (c.toNat - 48)
  else if 97 ≤ c.toNat ∧ c.toNat ≤ 102 then some (c.toNat - 87)
  else if 65 ≤ c.toNat ∧ c.toNat ≤ 70 then some (c.toNat - 55)
  else none

/-- Four hexadecimal digits. -/
def hex4 : Parser Nat
  | a :: b :: c :: d :: rest =>
    match hexVal a, hexVal b, hexVal c, hexVal d with
    | some x, some y, some z, some w => some (((x * 16 + y) * 16 + z) * 16 + w, rest)
    | _, _, _, _ => none
  | _ => none

/-- A `\uXXXX` escape, backslash included. -/
def getu4 : Parser Nat
  | b :: u :: rest => if b = backslash ∧ u = 'u' then hex4 rest else none
  | _ => none

/-- The character an escape stands for, read after the backslash. A `\uXXXX` in the
surrogate range is combined with a following low surrogate escape when the two form a
valid pair, and is replaced by U+FFFD otherwise. -/
def unescape : Parser Char
  | [] => none
  | c :: rest =>
    if c = quote ∨ c = backslash ∨ c = slash then some (c, rest)
    else if c = 'b' then some (Char.ofNat 8, rest)
    else if c = 'f' then some (Char.ofNat 12, rest)
    else if c = 'n' then some (Char.ofNat 10, rest)
    else if c = 'r' then some (Char.ofNat 13, rest)
    else if c = 't' then some (Char.ofNat 9, rest)
    else if c = 'u' then
      match hex4 rest with
      | none => none
      | some (u, rest1) =>
        if 55296 ≤ u ∧ u < 57344 then
          match getu4 rest1 with
          | some (u2, rest2) =>
            if u < 56320 ∧ 56320 ≤ u2 ∧ u2 < 57344 then
              some (Char.ofNat (65536 + (u - 55296) * 1024 + (u2 - 56320)), rest2)
            else some (replacement, rest1)
          | none => some (replacement, rest1)
        else some (Char.ofNat u, rest1)
    else none

/-- The contents of a string literal up to the closing quote, unescaped. A raw
control character is a syntax error. Every round consumes input, so the length of the
input is enough fuel. -/
def pChars : Nat → Parser (List Char)
  | 0, _ => none
  | _ + 1, [] => none
  | n + 1, c :: rest =>
    if c = quote then some ([], rest)
    else if c = backslash then
      match unescape rest with
      | none => none
      | some (ch, rest1) => (pChars n rest1).map fun r => (ch :: r.1, r.2)
    else if c.toNat < 32 then none
    else (pChars n rest).map fun r => (c :: r.1, r.2)

/-- The longest run of decimal digits. -/
def spanDigits : List Char → List Char × List Char
  | [] => ([], [])
  | c :: cs =>
    if c.isDigit then ((c :: (spanDigits cs).1), (spanDigits cs).2) else ([], c :: cs)

/-- The optional fraction of a number: a dot and at least one digit. -/
def pFrac : Parser (List Char)
  | [] => some ([], [])
  | c :: cs =>
    if c = dot then
      match spanDigits cs with
      | ([], _) => none
      | (d :: ds, rest) => some (dot :: d :: ds, rest)
    else some ([], c :: cs)

/-- The optional exponent of a number: `e` or `E`, an optional sign, at least one
digit. -/
def pExp : Parser (List Char)
  | [] => some ([], [])
  | c :: cs =>
    if c = 'e' ∨ c = 'E' then
      match cs with
      | [] => none
      | s :: cs2 =>
        if s = plus ∨ s = minus then
          match spanDigits cs2 with
          | ([], _) => none
          | (d :: ds, rest) => some (c :: s :: d :: ds, rest)
        else
          match spanDigits (s :: cs2) with
          | ([], _) => none
          | (d :: ds, rest) => some (c :: d :: ds, rest)
    else some ([], c :: cs)

/-- The integer part of a number: a single `0`, or a non-zero digit and more digits. -/
def pIntPart : Parser (List Char)
  | [] => none
  | c :: cs =>
    if c = '0' then some (['0'], cs)
    else if c.isDigit then some (c :: (spanDigits cs).1, (spanDigits cs).2)
    else none

/-- A number literal after its optional minus sign. -/
def pUnsigned : Parser (List Char) := fun cs =>
  match pIntPart cs with
  | none => none
  | some (ip, rest) =>
    match pFrac rest with
    | none => none
    | some (fr, rest1) =>
      match pExp rest1 with
      | none => none
      | some (ex, rest2) => some (ip ++ fr ++ ex, rest2)

/-- A number literal. -/
def pNumber : Parser (List Char)
  | [] => none
  | c :: cs =>
    if c = minus then (pUnsigned cs).map fun r => (minus :: r.1, r.2)
    else pUnsigned (c :: cs)

/-- A string, a literal name or a number; the input starts at the value. -/
def pScalar : Parser Value
  | [] => none
  | c :: rest =>
    if c = quote then (pChars rest.length rest).map fun r => (.string r.1, r.2)
    else if c = 't' then (pLit ['r', 'u', 'e'] rest).map fun r => (.bool true, r.2)
    else if c = 'f' then (pLit ['a', 'l', 's', 'e'] rest).map fun r => (.bool false, r.2)
    else if c = 'n' then (pLit ['u', 'l', 'l'] rest).map fun r => (.null, r.2)
    else (pNumber (c :: rest)).map fun r => (.number r.1, r.2)

/-- The elements of a non-empty array, `pv` reading one value. -/
def pElems (pv : Parser Value) : Nat → Parser (List Value)
  | 0, _ => none
  | n + 1, cs =>
    match pv cs with
    | none => none
    | some (v, rest) =>
      match skipWs rest with
      | [] => none
      | c :: rest1 =>
        if c = comma then (pElems pv n rest1).map fun r => (v :: r.1, r.2)
        else if c = rbracket then some ([v], rest1)
        else none

/-- An array after its opening bracket. -/
def pArray (pv : Parser Value) : Parser Value := fun cs =>
  match skipWs cs with
  | [] => none
  | c :: rest =>
    if c = rbracket then some (.array [], rest)
    else (pElems pv cs.length (c :: rest)).map fun r => (.array r.1, r.2)

/-- The members of a non-empty object, `pv` reading one value. -/
def pMembers (pv : Parser Value) : Nat → Parser (List (List Char × Value))
  | 0, _ => none
  | n + 1, cs =>
    match skipWs cs with
    | [] => none
    | c :: rest =>
      if c = quote then
        match pChars rest.length rest with
        | none => none
        | some (key, rest1) =>
          match skipWs rest1 with
          | [] => none
          | c1 :: rest2 =>
            if c1 = colon then
              match pv rest2 with
              | none => none
              | some (v, rest3) =>
                match skipWs rest3 with
                | [] => none
                | c2 :: rest4 =>
                  if c2 = comma then
                    (pMembers pv n rest4).map fun r => ((key, v) :: r.1, r.2)
                  else if c2 = rbrace then some ([(key, v)], rest4)
                  else none
            else none
      else none

/-- An object after its opening brace. -/
def pObject (pv : Parser Value) : Parser Value := fun cs =>
  match skipWs cs with
  | [] => none
  | c :: rest =>
    if c = rbrace then some (.object [], rest)
    else (pMembers pv cs.length (c :: rest)).map fun r => (.object r.1, r.2)

/-- A value with at most `depth` levels of arrays and objects around its innermost
value, after optional whitespace. -/
def parseValue : Nat → Parser Value
  | 0, cs => pScalar (skipWs cs)
  | depth + 1, cs =>
    match skipWs cs with
    | [] => none
    | c :: rest =>
      if c = lbrace then pObject (parseValue depth) rest
      else if c = lbracket then pArray (parseValue depth) rest
      else pScalar (c :: rest)

/-- The nesting the decoder accepts. -/
def maxDepth : Nat := 10000

/-- A whole document: one value, with nothing but whitespace after it. -/
def parseDocument (cs : List Char) : Option Value :=
  match parseValue maxDepth cs with
  | none => none
  | some (v, rest) => if skipWs rest = [] then some v else none

/-! ### Decoding into the structs (`json.Unmarshal`) -/

/-- Case folding of member names: ASCII letters, plus the Kelvin sign and the long s,
which fold to `k` and `s`. -/
def foldChar (c : Char) : Char :=
  if 65 ≤ c.toNat ∧ c.toNat ≤ 90 then Char.ofNat (c.toNat + 32)
  else if c = Char.ofNat 8490 then 'k'
  else if c = Char.ofNat 383 then 's'
  else c

/-- The index of the field a member name selects: the field whose tag is the name,
or else the first whose tag equals it up to case. `none` when there is none - the
member is then ignored. -/
def matchField (tags : List String) (key : List Char) : Option Nat :=
  match tags.findIdx? (fun t => t.data = key) with
  | some i => some i
  | none => tags.findIdx? (fun t => t.data.map foldChar = key.map foldChar)

/-- A value stored into a `string` field holding `old`. -/
def unmarshalString (v : Value) (old : String) : Except String String :=
  match v with
  | .string s => .ok (String.mk s)
  | .null => .ok old
  | _ => .error "json: cannot unmarshal value into Go value of type string"

/-- The value of a run of decimal digits. -/
def natOfDigits (ds : List Char) : Option Nat :=
  if ds ≠ [] ∧ ds.all Char.isDigit then
    some (ds.foldl (fun acc d => 10 * acc + (d.toNat - 48)) 0)
  else none

/-- The integer a number literal denotes, when it is written without fraction and
exponent. -/
def intOfLit : List Char → Option Int
  | [] => none
  | c :: cs =>
    if c = minus then
      match natOfDigits cs with
      | some n => some (-Int.ofNat n)
      | none => none
    else
      match natOfDigits (c :: cs) with
      | some n => some (Int.ofNat n)
      | none => none

/-- A value stored into an `int` or `int64` field holding `old`. The fields are
unbounded integers in this embedding, so there is no range check. -/
def unmarshalInt (v : Value) (old : Int) : Except String Int :=
  match v with
  | .number lit =>
    match intOfLit lit with
    | some i => .ok i
    | none => .error "json: cannot unmarshal number into Go value of type int"
  | .null => .ok old
  | _ => .error "json: cannot unmarshal value into Go value of type int"

def deliveryTags : List String :=
  ["name", "phone", "zip", "city", "address", "region", "email"]

def paymentTags : List String :=
  ["transaction", "request_id", "currency", "provider", "amount", "payment_dt", "bank",
   "delivery_cost", "goods_total", "custom_fee"]

def itemTags : List String :=
  ["chrt_id", "track_number", "price", "rid", "name", "sale", "size", "total_price",
   "nm_id", "brand", "status"]

def orderTags : List String :=
  ["order_uid", "track_number", "entry", "delivery", "payment", "items", "locale",
   "internal_signature", "customer_id", "delivery_service", "shardkey", "sm_id",
   "date_created", "oof_shard"]

/-- One member stored into a `Delivery`. -/
def setDelivery (d : Delivery) (m : List Char × Value) : Except String Delivery :=
  match matchField deliveryTags m.1 with
  | some 0 => (unmarshalString m.2 d.Name).map fun s => { d with Name := s }
  | some 1 => (unmarshalString m.2 d.Phone).map fun s => { d with Phone := s }
  | some 2 => (unmarshalString m.2 d.Zip).map fun s => { d with Zip := s }
  | some 3 => (unmarshalString m.2 d.City).map fun s => { d with City := s }
  | some 4 => (unmarshalString m.2 d.Address).map fun s => { d with Address := s }
  | some 5 => (unmarshalString m.2 d.Region).map fun s => { d with Region := s }
  | some 6 => (unmarshalString m.2 d.Email).map fun s => { d with Email := s }
  | _ => .ok d

/-- The members of an object stored one after the other, later ones over earlier
ones. -/
def setAll {α : Type} (set : α → List Char × Value → Except String α) :
    List (List Char × Value) → α → Except String α
  | [], a => .ok a
  | m :: ms, a =>
    match set a m with
    | .error e => .error e
    | .ok a1 => setAll set ms a1

/-- A value stored into a `Delivery` holding `old`. -/
def unmarshalDelivery (v : Value) (old : Delivery) : Except String Delivery :=
  match v with
  | .object ms => setAll setDelivery ms old
  | .null => .ok old
  | _ => .error "json: cannot unmarshal value into Go value of type main.Delivery"

/-- One member stored into a `Payment`. -/
def setPayment (p : Payment) (m : List Char × Value) : Except String Payment :=
  match matchField paymentTags m.1 with
  | some 0 => (unmarshalString m.2 p.Transaction).map fun s => { p with Transaction := s }
  | some 1 => (unmarshalString m.2 p.RequestID).map fun s => { p with RequestID := s }
  | some 2 => (unmarshalString m.2 p.Currency).map fun s => { p with Currency := s }
  | some 3 => (unmarshalString m.2 p.Provider).map fun s => { p with Provider := s }
  | some 4 => (unmarshalInt m.2 p.Amount).map fun i => { p with Amount := i }
  | some 5 => (unmarshalInt m.2 p.PaymentDT).map fun i => { p with PaymentDT := i }
  | some 6 => (unmarshalString m.2 p.Bank).map fun s => { p with Bank := s }
  | some 7 => (unmarshalInt m.2 p.DeliveryCost).map fun i => { p with DeliveryCost := i }
  | some 8 => (unmarshalInt m.2 p.GoodsTotal).map fun i => { p with GoodsTotal := i }
  | some 9 => (unmarshalInt m.2 p.CustomFee).map fun i => { p with CustomFee := i }
  | _ => .ok p

/-- A value stored into a `Payment` holding `old`. -/
def unmarshalPayment (v : Value) (old : Payment) : Except String Payment :=
  match v with
  | .object ms => setAll setPayment ms old
  | .null => .ok old
  | _ => .error "json: cannot unmarshal value into Go value of type main.Payment"

/-- One member stored into an `Item`. -/
def setItem (it : Item) (m : List Char × Value) : Except String Item :=
  match matchField itemTags m.1 with
  | some 0 => (unmarshalInt m.2 it.ChrtID).map fun i => { it with ChrtID := i }
  | some 1 => (unmarshalString m.2 it.TrackNumber).map fun s => { it with TrackNumber := s }
  | some 2 => (unmarshalInt m.2 it.Price).map fun i => { it with Price := i }
  | some 3 => (unmarshalString m.2 it.RID).map fun s => { it with RID := s }
  | some 4 => (unmarshalString m.2 it.Name).map fun s => { it with Name := s }
  | some 5 => (unmarshalInt m.2 it.Sale).map fun i => { it with Sale := i }
  | some 6 => (unmarshalString m.2 it.Size).map fun s => { it with Size := s }
  | some 7 => (unmarshalInt m.2 it.TotalPrice).map fun i => { it with TotalPrice := i }
  | some 8 => (unmarshalInt m.2 it.NmID).map fun i => { it with NmID := i }
  | some 9 => (unmarshalString m.2 it.Brand).map fun s => { it with Brand := s }
  | some 10 => (unmarshalInt m.2 it.Status).map fun i => { it with Status := i }
  | _ => .ok it

/-- A value stored into an `Item` holding `old`. -/
def unmarshalItem (v : Value) (old : Item) : Except String Item :=
  match v with
  | .object ms => setAll setItem ms old
  | .null => .ok old
  | _ => .error "json: cannot unmarshal value into Go value of type main.Item"

/-- The elements of an array stored into a slice holding `old`: element `i` is stored
into the element already at index `i` when there is one, into a zero `Item`
otherwise. -/
def unmarshalElems : List Value → List Item → Except String (List Item)
  | [], _ => .ok []
  | v :: vs, old =>
    match unmarshalItem v (old.headD {}) with
    | .error e => .error e
    | .ok it =>
      match unmarshalElems vs old.tail with
      | .error e => .error e
      | .ok its => .ok (it :: its)

/-- A value stored into the `Items` slice holding `old`. -/
def unmarshalItems (v : Value) (old : List Item) : Except String (List Item) :=
  match v with
  | .array vs => unmarshalElems vs old
  | .null => .ok []
  | _ => .error "json: cannot unmarshal value into Go value of type []main.Item"

/-- One member stored into an `Order`. -/
def setOrder (o : Order) (m : List Char × Value) : Except String Order :=
  match matchField orderTags m.1 with
  | some 0 => (unmarshalString m.2 o.OrderUID).map fun s => { o with OrderUID := s }
  | some 1 => (unmarshalString m.2 o.TrackNumber).map fun s => { o with TrackNumber := s }
  | some 2 => (unmarshalString m.2 o.Entry).map fun s => { o with Entry := s }
  | some 3 => (unmarshalDelivery m.2 o.Delivery).map fun d => { o with Delivery := d }
  | some 4 => (unmarshalPayment m.2 o.Payment).map fun p => { o with Payment := p }
  | some 5 => (unmarshalItems m.2 o.Items).map fun its => { o with Items := its }
  | some 6 => (unmarshalString m.2 o.Locale).map fun s => { o with Locale := s }
  | some 7 => (unmarshalString m.2 o.InternalSig).map fun s => { o with InternalSig := s }
  | some 8 => (unmarshalString m.2 o.CustomerID).map fun s => { o with CustomerID := s }
  | some 9 =>
    (unmarshalString m.2 o.DeliveryService).map fun s => { o with DeliveryService := s }
  | some 10 => (unmarshalString m.2 o.ShardKey).map fun s => { o with ShardKey := s }
  | some 11 => (unmarshalInt m.2 o.SMID).map fun i => { o with SMID := i }
  | some 12 => (unmarshalString m.2 o.DateCreated).map fun s => { o with DateCreated := s }
  | some 13 => (unmarshalString m.2 o.OOFShard).map fun s => { o with OOFShard := s }
  | _ => .ok o

/-- A value stored into an `Order` holding `old`. -/
def unmarshalOrder (v : Value) (old : Order) : Except String Order :=
  match v with
  | .object ms => setAll setOrder ms old
  | .null => .ok old
  | _ => .error "json: cannot unmarshal value into Go value of type main.Order"

/-- What follows an encoded value inside the document: nothing, a comma, or a
closing bracket or brace. -/
def Stops (rest : List Char) : Prop :=
  rest = [] ∨ ∃ c tl, rest = c :: tl ∧ (c = comma ∨ c = rbracket ∨ c = rbrace)

/-- The parser `pv` reads the text `txt` as the value `v`, whatever follows it in the
document. -/
def Reads (pv : Parser Value) (v : Value) (txt : List Char) : Prop :=
  ∀ rest, Stops rest → pv (txt ++ rest) = some (v, rest)

/-! ### The value an encoded struct parses to

Each struct as the list of its members: the name, the value the member parses to, and
the text the encoder writes for it. -/

def deliveryMembers (d : Delivery) : List (String × Value × List Char) :=
  [("name", .string d.Name.data, encString d.Name),
   ("phone", .string d.Phone.data, encString d.Phone),
   ("zip", .string d.Zip.data, encString d.Zip),
   ("city", .string d.City.data, encString d.City),
   ("address", .string d.Address.data, encString d.Address),
   ("region", .string d.Region.data, encString d.Region),
   ("email", .string d.Email.data, encString d.Email)]

def paymentMembers (p : Payment) : List (String × Value × List Char) :=
  [("transaction", .string p.Transaction.data, encString p.Transaction),
   ("request_id", .string p.RequestID.data, encString p.RequestID),
   ("currency", .string p.Currency.data, encString p.Currency),
   ("provider", .string p.Provider.data, encString p.Provider),
   ("amount", .number (encInt p.Amount), encInt p.Amount),
   ("payment_dt", .number (encInt p.PaymentDT), encInt p.PaymentDT),
   ("bank", .string p.Bank.data, encString p.Bank),
   ("delivery_cost", .number (encInt p.DeliveryCost), encInt p.DeliveryCost),
   ("goods_total", .number (encInt p.GoodsTotal), encInt p.GoodsTotal),
   ("custom_fee", .number (encInt p.CustomFee), encInt p.CustomFee)]

def itemMembers (it : Item) : List (String × Value × List Char) :=
  [("chrt_id", .number (encInt it.ChrtID), encInt it.ChrtID),
   ("track_number", .string it.TrackNumber.data, encString it.TrackNumber),
   ("price", .number (encInt it.Price), encInt it.Price),
   ("rid", .string it.RID.data, encString it.RID),
   ("name", .string it.Name.data, encString it.Name),
   ("sale", .number (encInt it.Sale), encInt it.Sale),
   ("size", .string it.Size.data, encString it.Size),
   ("total_price", .number (encInt it.TotalPrice), encInt it.TotalPrice),
   ("nm_id", .number (encInt it.NmID), encInt it.NmID),
   ("brand", .string it.Brand.data, encString it.Brand),
   ("status", .number (encInt it.Status), encInt it.Status)]

/-- The object made of a list of members. -/
def objectOf (ms : List (String × Value × List Char)) : Value :=
  .object (ms.map fun x => (x.1.data, x.2.1))

def itemsValue : List Item → Value
  | [] => .null
  | it :: its => .array ((it :: its).map fun x => objectOf (itemMembers x))

def orderMembers (o : Order) : List (String × Value × List Char) :=
  [("order_uid", .string o.OrderUID.data, encString o.OrderUID),
   ("track_number", .string o.TrackNumber.data, encString o.TrackNumber),
   ("entry", .string o.Entry.data, encString o.Entry),
   ("delivery", objectOf (deliveryMembers o.Delivery), encDelivery o.Delivery),
   ("payment", objectOf (paymentMembers o.Payment), encPayment o.Payment),
   ("items", itemsValue o.Items, encItems o.Items),
   ("locale", .string o.Locale.data, encString o.Locale),
   ("internal_signature", .string o.InternalSig.data, encString o.InternalSig),
   ("customer_id", .string o.CustomerID.data, encString o.CustomerID),
   ("delivery_service", .string o.DeliveryService.data, encString o.DeliveryService),
   ("shardkey", .string o.ShardKey.data, encString o.ShardKey),
   ("sm_id", .number (encInt o.SMID), encInt o.SMID),
   ("date_created", .string o.DateCreated.data, encString o.DateCreated),
   ("oof_shard", .string o.OOFShard.data, encString o.OOFShard)]

end Json

/-- The document `json.Marshal(order)` produces. -/
@[irreducible]
def jsonDoc (order : Order) : String := String.mk (Json.encOrder order)

/-- The call `json.Unmarshal(data, &order)` on a zero `order`. -/
@[irreducible]
def jsonParse (data : String) : Except String Order :=
  match Json.parseDocument data.data with
  | none => .error "invalid character in JSON input"
  | some v => Json.unmarshalOrder v {}

/-- The model of `encoding/json` on `Order`. -/
def jsonCodec : Codec := { marshal := fun order => .ok (jsonDoc order), unmarshal := jsonParse }

/-! ## Scenario data -/

/-- The order of example scenario 1. -/
def orderX1 : Order :=
  { OrderUID := "X1", TrackNumber := "T1",
    Delivery := { Name := "Jane Doe", Phone := "+1000", Zip := "90210" } }

/-- The payload of example scenario 2 after decoding: `order_uid` is `"X2"`, the
delivery block carries an empty name, phone `"+1000"` and zip `"90210"`, and every
other field is absent, hence left at its zero value. -/
def orderX2 : Order :=
  { OrderUID := "X2", Delivery := { Name := "", Phone := "+1000", Zip := "90210" } }

/-- A table holding the order of scenario 1. -/
def dbX1 : DB := { rows := [("X1", jsonDoc orderX1)] }

/-- A table whose row under `"X1"` holds a JSON document that is not an object. -/
def dbArray : DB := { rows := [("X1", "[]")] }

/-- The state after scenario 1 has been ingested into a fresh process. -/
def stateX1 : State := { db := dbX1, cache := Cache.empty.set "X1" orderX1 }

/-! ## Assumptions on a codec -/

/-- Decoding undoes encoding on `order`: every document `marshal` produces for it
decodes back to it. -/
def RoundTripsOn (codec : Codec) (order : Order) : Prop :=
  ∀ doc, codec.marshal order = .ok doc → codec.unmarshal doc = .ok order

/-- Decoding undoes encoding on every order that is itself the result of decoding. -/
def RoundTripsOnDecoded (codec : Codec) : Prop :=
  ∀ data order, codec.unmarshal data = .ok order → RoundTripsOn codec order

/-! ## Coherence of cache and table -/

/-- Every cache entry `(k, o)` has `o.OrderUID = k`, passes validation, and is backed
by a row under `k` whose document decodes to `o`. -/
def CacheCoherent (codec : Codec) (st : State) : Prop :=
  ∀ k o, st.cache k = some o →
    o.OrderUID = k ∧ validateOrder o = .ok () ∧
      ∃ doc, st.db.rows.lookup k = some doc ∧ codec.unmarshal doc = .ok o

/-- The document found under a key decodes to a valid order with that key as its
`OrderUID`. -/
def TableWellFormed (codec : Codec) (db : DB) : Prop :=
  ∀ k doc, db.rows.lookup k = some doc →
    ∃ o, codec.unmarshal doc = .ok o ∧ o.OrderUID = k ∧ validateOrder o = .ok ()

/-- An order with every kind of field filled in: payment amounts, two items, and
string contents that need escaping. -/
def orderX4 : Order :=
  { OrderUID := "X4", TrackNumber := "T4", Entry := "WBIL",
    Delivery := { Name := "A <b> & \"C\"", Phone := "+3000", Zip := "2639809",
                  City := "Kiryat Mozkin", Address := "Ploshad Mira 15",
                  Region := "Kraiot", Email := "test@gmail.com" },
    Payment := { Transaction := "X4", Currency := "USD", Provider := "wbpay",
                 Amount := 1817, PaymentDT := 1637907727, Bank := "alpha",
                 DeliveryCost := 1500, GoodsTotal := 317, CustomFee := 0 },
    Items := [{ ChrtID := 9934930, TrackNumber := "T4", Price := 453, RID := "r1",
                Name := "Mascaras", Sale := 30, Size := "0", TotalPrice := 317,
                NmID := 2389212, Brand := "Vivienne Sabo", Status := 202 },
              { ChrtID := 1, Price := -5, Name := "line\nbreak" }],
    Locale := "en", CustomerID := "test", DeliveryService := "meest", ShardKey := "9",
    SMID := 99, DateCreated := "2021-11-26T06:22:19Z", OOFShard := "1" }

/-- A second valid order, for runs with more than one key. -/
def orderX3 : Order :=
  { OrderUID := "X3", TrackNumber := "T3",
    Delivery := { Name := "John Roe", Phone := "+2000", Zip := "10001" } }

/-! ## The JSON codec round-trips -/

namespace Json

/-! ### Strings -/

theorem hexVal_hexDigit {d : Nat} (h : d < 16) : hexVal (hexDigit d) = some d := by
  interval_cases d <;> rfl

theorem unescape_u00 (c : Char) (hc : c.toNat < 128) (rest : List Char) :
    unescape ('u' :: '0' :: '0' :: hexDigit (c.toNat / 16) :: hexDigit (c.toNat % 16) :: rest)
      = some (c, rest) := by
  have h0 : hexVal '0' = some 0 := rfl
  have ha : hexVal (hexDigit (c.toNat / 16)) = some (c.toNat / 16) :=
    hexVal_hexDigit (by omega)
  have hb : hexVal (hexDigit (c.toNat % 16)) = some (c.toNat % 16) :=
    hexVal_hexDigit (by omega)
  have hu1 : ¬ ('u' = quote ∨ 'u' = backslash ∨ 'u' = slash) := by decide
  have hval : ((0 * 16 + 0) * 16 + c.toNat / 16) * 16 + c.toNat % 16 = c.toNat := by omega
  have hns : ¬ (55296 ≤ c.toNat ∧ c.toNat < 57344) := by omega
  simp only [unescape, hu1, if_false, show ('u' : Char) ≠ 'b' by decide,
    show ('u' : Char) ≠ 'f' by decide, show ('u' : Char) ≠ 'n' by decide,
    show ('u' : Char) ≠ 'r' by decide, show ('u' : Char) ≠ 't' by decide, if_true,
    hex4, h0, ha, hb, hval, hns, Char.ofNat_toNat]

theorem unescape_u2028 (rest : List Char) :
    unescape ('u' :: '2' :: '0' :: '2' :: '8' :: rest) = some (Char.ofNat 8232, rest) := by
  rfl

theorem unescape_u2029 (rest : List Char) :
    unescape ('u' :: '2' :: '0' :: '2' :: '9' :: rest) = some (Char.ofNat 8233, rest) := by
  rfl

theorem pChars_backslash (n : Nat) (xs : List Char) :
    pChars (n + 1) (backslash :: xs) =
      match unescape xs with
      | none => none
      | some (ch, rest1) => (pChars n rest1).map fun r => (ch :: r.1, r.2) := by
  have hbq : backslash ≠ quote := by decide
  simp only [pChars, hbq, if_false, if_true]

theorem pChars_escaped (n : Nat) (xs rest : List Char) (c : Char)
    (h : unescape xs = some (c, rest)) :
    pChars (n + 1) (backslash :: xs) = (pChars n rest).map fun r => (c :: r.1, r.2) := by
  rw [pChars_backslash, h]

/-- Reading back one escaped character costs one round and gives the character. -/
theorem pChars_escapeChar (n : Nat) (c : Char) (rest : List Char) :
    pChars (n + 1) (escapeChar c ++ rest) = (pChars n rest).map fun r => (c :: r.1, r.2) := by
  unfold escapeChar
  split
  · next h =>
    have hu : unescape (c :: rest) = some (c, rest) := by
      rcases h with h | h <;> subst h <;> rfl
    exact pChars_escaped n _ rest c hu
  · split
    · next h => subst h; exact pChars_escaped n _ rest _ rfl
    · split
      · next h => subst h; exact pChars_escaped n _ rest _ rfl
      · split
        · next h => subst h; exact pChars_escaped n _ rest _ rfl
        · split
          · next h => subst h; exact pChars_escaped n _ rest _ rfl
          · split
            · next h => subst h; exact pChars_escaped n _ rest _ rfl
            · split
              · next h =>
                have hc : c.toNat < 128 := by
                  rcases h with h | h | h | h
                  · omega
                  · subst h; decide
                  · subst h; decide
                  · subst h; decide
                exact pChars_escaped n _ rest c (unescape_u00 c hc rest)
              · split
                · next h => subst h; exact pChars_escaped n _ rest _ (unescape_u2028 rest)
                · split
                  · next h => subst h; exact pChars_escaped n _ rest _ (unescape_u2029 rest)
                  · next hq _ _ _ _ _ hctl _ _ =>
                    have h1 : c ≠ quote := fun e => hq (Or.inl e)
                    have h2 : c ≠ backslash := fun e => hq (Or.inr e)
                    have h3 : ¬ c.toNat < 32 := fun e => hctl (Or.inl e)
                    show pChars (n + 1) (c :: rest) = _
                    simp only [pChars, h1, h2, h3, if_false]

theorem length_le_escape (s : List Char) : s.length ≤ (escape s).length := by
  induction s with
  | nil => simp [escape]
  | cons c cs ih =>
    have h1 : 1 ≤ (escapeChar c).length := by
      unfold escapeChar
      repeat' split
      all_goals simp
    simp only [escape, List.length_cons, List.length_append]
    omega

/-- The contents of an encoded string, up to its closing quote, read back. -/
theorem pChars_escape (s rest : List Char) (n : Nat) (h : s.length < n) :
    pChars n (escape s ++ quote :: rest) = some (s, rest) := by
  induction s generalizing n with
  | nil =>
    cases n with
    | zero => simp at h
    | succ n => simp [escape, pChars]
  | cons c cs ih =>
    cases n with
    | zero => simp at h
    | succ n =>
      have hlt : cs.length < n := by simpa using h
      simp only [escape, List.append_assoc, pChars_escapeChar, ih n hlt, Option.map_some']

/-- An encoded string read back as a scalar. -/
theorem pScalar_encString (s : String) (rest : List Char) :
    pScalar (encString s ++ rest) = some (.string s.data, rest) := by
  have hlen : s.data.length < (escape s.data ++ quote :: rest).length := by
    have := length_le_escape s.data
    simp only [List.length_append, List.length_cons]
    omega
  have he : encString s ++ rest = quote :: (escape s.data ++ quote :: rest) := by
    simp only [encString, List.cons_append, List.append_assoc, List.singleton_append,
      List.nil_append]
  rw [he]
  simp only [pScalar, if_true, pChars_escape s.data rest _ hlen, Option.map_some']

/-! ### Numbers -/

theorem digitChar_isDigit {d : Nat} (h : d < 10) : (digitChar d).isDigit = true := by
  interval_cases d <;> decide

theorem digitChar_toNat {d : Nat} (h : d < 10) : (digitChar d).toNat - 48 = d := by
  interval_cases d <;> decide

theorem digitChar_ne_minus {d : Nat} (h : d < 10) : digitChar d ≠ minus := by
  interval_cases d <;> decide

theorem digitChar_ne_zero {d : Nat} (h : d < 10) (h0 : d ≠ 0) : digitChar d ≠ '0' := by
  interval_cases d <;> first | exact absurd rfl h0 | decide

/-- The first character after an encoded value is not part of a number. -/
theorem Stops.head (rest : List Char) (h : Stops rest) :
    rest = [] ∨ ∃ c tl, rest = c :: tl ∧ c.isDigit = false ∧ c ≠ dot ∧ c ≠ 'e' ∧ c ≠ 'E' ∧
      isWs c = false := by
  rcases h with h | ⟨c, tl, h, hc⟩
  · exact Or.inl h
  · refine Or.inr ⟨c, tl, h, ?_⟩
    rcases hc with hc | hc | hc <;> subst hc <;> decide

theorem spanDigits_stops (rest : List Char) (h : Stops rest) : spanDigits rest = ([], rest) := by
  rcases Stops.head rest h with h | ⟨c, tl, h, hd, _⟩
  · subst h; rfl
  · subst h
    simp [spanDigits, hd]

theorem spanDigits_digits (l : List Nat) (hl : ∀ d ∈ l, d < 10) (rest : List Char)
    (h : Stops rest) : spanDigits (l.map digitChar ++ rest) = (l.map digitChar, rest) := by
  induction l with
  | nil => simpa using spanDigits_stops rest h
  | cons d ds ih =>
    have hd : d < 10 := hl d (by simp)
    have ih2 := ih (fun x hx => hl x (by simp [hx]))
    show spanDigits (digitChar d :: (ds.map digitChar ++ rest)) = _
    simp only [spanDigits, digitChar_isDigit hd, if_true, ih2]
    rfl

theorem pFrac_stops (rest : List Char) (h : Stops rest) : pFrac rest = some ([], rest) := by
  rcases Stops.head rest h with h | ⟨c, tl, h, _, hdot, _⟩
  · subst h; rfl
  · subst h
    simp only [pFrac, hdot, if_false]

theorem pExp_stops (rest : List Char) (h : Stops rest) : pExp rest = some ([], rest) := by
  rcases Stops.head rest h with h | ⟨c, tl, h, _, _, he, hE, _⟩
  · subst h; rfl
  · subst h
    simp only [pExp, he, hE, or_self, if_false]

theorem skipWs_stops (rest : List Char) (h : Stops rest) : skipWs rest = rest := by
  rcases Stops.head rest h with h | ⟨c, tl, h, _, _, _, _, hw⟩
  · subst h; rfl
  · subst h
    simp [skipWs, hw]

/-- The digits of a positive number start with a non-zero digit. -/
theorem digits_reverse_cons {n : Nat} (hn : n ≠ 0) :
    ∃ d ds, d ≠ 0 ∧ d < 10 ∧ (∀ x ∈ ds, x < 10) ∧ (Nat.digits 10 n).reverse = d :: ds := by
  have hne : Nat.digits 10 n ≠ [] := Nat.digits_ne_nil_iff_ne_zero.mpr hn
  have hlast := Nat.getLast_digit_ne_zero 10 hn
  have hall : ∀ x ∈ (Nat.digits 10 n).reverse, x < 10 := fun x hx =>
    Nat.digits_lt_base (by norm_num) (List.mem_reverse.mp hx)
  cases hL : (Nat.digits 10 n).reverse with
  | nil => simp at hL; exact absurd hL hne
  | cons d ds =>
    rw [hL] at hall
    refine ⟨d, ds, ?_, hall d (by simp), fun x hx => hall x (by simp [hx]), rfl⟩
    have hh : (Nat.digits 10 n).reverse.head? = some d := by rw [hL]; rfl
    rw [List.head?_reverse, List.getLast?_eq_getLast _ hne] at hh
    intro h0
    have hd : (Nat.digits 10 n).getLast hne = d := Option.some.inj hh
    rw [h0] at hd
    exact hlast hd

/-- The shape of an encoded natural number: a single zero, or a non-zero digit followed
by digits. -/
theorem encNat_shape (n : Nat) :
    encNat n = ['0'] ∨ ∃ (d : Nat) (ds : List Nat), d ≠ 0 ∧ d < 10 ∧ (∀ x ∈ ds, x < 10) ∧
      encNat n = digitChar d :: ds.map digitChar := by
  unfold encNat
  split
  · exact Or.inl rfl
  · next hn =>
    obtain ⟨d, ds, h0, h10, hds, he⟩ := digits_reverse_cons hn
    exact Or.inr ⟨d, ds, h0, h10, hds, by rw [he]; rfl⟩

theorem pUnsigned_encNat (n : Nat) (rest : List Char) (h : Stops rest) :
    pUnsigned (encNat n ++ rest) = some (encNat n, rest) := by
  rcases encNat_shape n with he | ⟨d, ds, h0, h10, hds, he⟩
  · rw [he]
    simp only [pUnsigned, List.cons_append, List.nil_append, pIntPart, if_true,
      pFrac_stops rest h, pExp_stops rest h, List.append_nil]
  · rw [he]
    simp only [pUnsigned, List.cons_append, pIntPart, digitChar_ne_zero h10 h0, if_false,
      digitChar_isDigit h10, if_true, spanDigits_digits ds hds rest h,
      pFrac_stops rest h, pExp_stops rest h, List.append_nil]

theorem encNat_head_digit (n : Nat) :
    ∃ d tl, d < 10 ∧ encNat n = digitChar d :: tl := by
  rcases encNat_shape n with he | ⟨d, ds, _, h10, _, he⟩
  · exact ⟨0, [], by norm_num, he⟩
  · exact ⟨d, _, h10, he⟩

/-- An encoded integer read back as a number literal. -/
theorem pNumber_encInt (i : Int) (rest : List Char) (h : Stops rest) :
    pNumber (encInt i ++ rest) = some (encInt i, rest) := by
  unfold encInt
  split
  · simp only [List.cons_append, pNumber, if_true, pUnsigned_encNat _ rest h, Option.map_some']
  · obtain ⟨d, tl, hd, he⟩ := encNat_head_digit i.natAbs
    have hu := pUnsigned_encNat i.natAbs rest h
    rw [he] at hu ⊢
    simp only [List.cons_append] at hu ⊢
    simp only [pNumber, digitChar_ne_minus hd, if_false, hu]

/-- The first character of an encoded integer is a minus sign or a digit. -/
theorem encInt_head (i : Int) :
    ∃ c tl, encInt i = c :: tl ∧ (c = minus ∨ ∃ d, d < 10 ∧ c = digitChar d) := by
  unfold encInt
  split
  · exact ⟨minus, _, rfl, Or.inl rfl⟩
  · obtain ⟨d, tl, hd, he⟩ := encNat_head_digit i.natAbs
    exact ⟨digitChar d, tl, he, Or.inr ⟨d, hd, rfl⟩⟩

theorem digitChar_not_special {d : Nat} (h : d < 10) :
    digitChar d ≠ quote ∧ digitChar d ≠ 't' ∧ digitChar d ≠ 'f' ∧ digitChar d ≠ 'n' ∧
      digitChar d ≠ lbrace ∧ digitChar d ≠ lbracket ∧ isWs (digitChar d) = false := by
  interval_cases d <;> decide

/-- An encoded integer read back as a scalar. -/
theorem pScalar_encInt (i : Int) (rest : List Char) (h : Stops rest) :
    pScalar (encInt i ++ rest) = some (.number (encInt i), rest) := by
  have hn := pNumber_encInt i rest h
  obtain ⟨c, tl, he, hc⟩ := encInt_head i
  rw [he] at hn ⊢
  simp only [List.cons_append] at hn ⊢
  have hsp : c ≠ quote ∧ c ≠ 't' ∧ c ≠ 'f' ∧ c ≠ 'n' := by
    rcases hc with hc | ⟨d, hd, hc⟩
    · subst hc; decide
    · subst hc
      have := digitChar_not_special hd
      exact ⟨this.1, this.2.1, this.2.2.1, this.2.2.2.1⟩
  simp only [pScalar, hsp.1, hsp.2.1, hsp.2.2.1, hsp.2.2.2, if_false, hn, Option.map_some']

theorem foldl_digits (n : Nat) :
    (Nat.digits 10 n).reverse.foldl (fun a d => 10 * a + d) 0 = n := by
  rw [List.foldl_reverse]
  have := Nat.ofDigits_digits 10 n
  rw [Nat.ofDigits_eq_foldr] at this
  simpa [add_comm] using this

theorem foldl_digitChar (l : List Nat) (hl : ∀ d ∈ l, d < 10) (acc : Nat) :
    (l.map digitChar).foldl (fun a c => 10 * a + (c.toNat - 48)) acc =
      l.foldl (fun a d => 10 * a + d) acc := by
  induction l generalizing acc with
  | nil => rfl
  | cons d ds ih =>
    have hd : d < 10 := hl d (by simp)
    simp only [List.map, List.foldl, digitChar_toNat hd]
    exact ih (fun x hx => hl x (by simp [hx])) _

theorem natOfDigits_encNat (n : Nat) : natOfDigits (encNat n) = some n := by
  unfold encNat
  split
  · next h => subst h; rfl
  · next hn =>
    have hall : ∀ x ∈ (Nat.digits 10 n).reverse, x < 10 := fun x hx =>
      Nat.digits_lt_base (by norm_num) (List.mem_reverse.mp hx)
    have hne : (Nat.digits 10 n).reverse.map digitChar ≠ [] := by
      obtain ⟨d, ds, _, _, _, he⟩ := digits_reverse_cons hn
      rw [he]
      simp
    have hdig : ((Nat.digits 10 n).reverse.map digitChar).all Char.isDigit = true := by
      rw [List.all_eq_true]
      intro c hc
      obtain ⟨d, hd, rfl⟩ := List.mem_map.mp hc
      exact digitChar_isDigit (hall d hd)
    unfold natOfDigits
    rw [if_pos ⟨hne, hdig⟩, foldl_digitChar _ hall, foldl_digits]

/-- The literal of an encoded integer denotes that integer. -/
theorem intOfLit_encInt (i : Int) : intOfLit (encInt i) = some i := by
  unfold encInt
  split
  · next h =>
    have hi : -Int.ofNat i.natAbs = i := by
      show -(i.natAbs : Int) = i
      omega
    simp only [intOfLit, if_true, natOfDigits_encNat, hi]
  · next h =>
    have hi : Int.ofNat i.natAbs = i := by
      show (i.natAbs : Int) = i
      omega
    obtain ⟨d, tl, hd, he⟩ := encNat_head_digit i.natAbs
    have hn := natOfDigits_encNat i.natAbs
    rw [he] at hn ⊢
    simp only [intOfLit, digitChar_ne_minus hd, if_false, hn, hi]

/-! ### Values, arrays and objects -/

theorem stops_comma (tl : List Char) : Stops (comma :: tl) :=
  Or.inr ⟨comma, tl, rfl, Or.inl rfl⟩

theorem stops_rbracket (tl : List Char) : Stops (rbracket :: tl) :=
  Or.inr ⟨rbracket, tl, rfl, Or.inr (Or.inl rfl)⟩

theorem stops_rbrace (tl : List Char) : Stops (rbrace :: tl) :=
  Or.inr ⟨rbrace, tl, rfl, Or.inr (Or.inr rfl)⟩

theorem skipWs_cons (c : Char) (tl : List Char) (h : isWs c = false) :
    skipWs (c :: tl) = c :: tl := by
  simp [skipWs, h]

/-- Where a scalar starts, any depth will do. -/
theorem parseValue_scalar (depth : Nat) (c : Char) (tl : List Char) (hws : isWs c = false)
    (h1 : c ≠ lbrace) (h2 : c ≠ lbracket) : parseValue depth (c :: tl) = pScalar (c :: tl) := by
  cases depth with
  | zero => simp only [parseValue, skipWs_cons c tl hws]
  | succ d => simp only [parseValue, skipWs_cons c tl hws, h1, h2, if_false]

theorem encString_append (s : String) (rest : List Char) :
    encString s ++ rest = quote :: (escape s.data ++ quote :: rest) := by
  simp only [encString, List.cons_append, List.append_assoc, List.singleton_append,
    List.nil_append]

theorem pChars_body (s : String) (rest : List Char) :
    pChars (escape s.data ++ quote :: rest).length (escape s.data ++ quote :: rest) =
      some (s.data, rest) := by
  apply pChars_escape
  have := length_le_escape s.data
  simp only [List.length_append, List.length_cons]
  omega

theorem reads_string (depth : Nat) (s : String) :
    Reads (parseValue depth) (.string s.data) (encString s) := by
  intro rest _
  have h := pScalar_encString s rest
  rw [encString_append] at h ⊢
  rw [parseValue_scalar depth quote _ (by decide) (by decide) (by decide)]
  exact h

theorem reads_int (depth : Nat) (i : Int) :
    Reads (parseValue depth) (.number (encInt i)) (encInt i) := by
  intro rest hr
  have h := pScalar_encInt i rest hr
  obtain ⟨c, tl, he, hc⟩ := encInt_head i
  have hsp : isWs c = false ∧ c ≠ lbrace ∧ c ≠ lbracket := by
    rcases hc with hc | ⟨d, hd, hc⟩
    · subst hc; decide
    · subst hc
      have := digitChar_not_special hd
      exact ⟨this.2.2.2.2.2.2, this.2.2.2.2.1, this.2.2.2.2.2.1⟩
  have hp : parseValue depth (encInt i ++ rest) = pScalar (encInt i ++ rest) := by
    rw [he]
    exact parseValue_scalar depth c _ hsp.1 hsp.2.1 hsp.2.2
  rw [hp]
  exact h

theorem reads_null (depth : Nat) : Reads (parseValue depth) .null ['n', 'u', 'l', 'l'] := by
  intro rest _
  show parseValue depth ('n' :: 'u' :: 'l' :: 'l' :: rest) = _
  rw [parseValue_scalar depth 'n' _ (by decide) (by decide) (by decide)]
  simp only [pScalar, show ('n' : Char) ≠ quote by decide, show ('n' : Char) ≠ 't' by decide,
    show ('n' : Char) ≠ 'f' by decide, if_false, if_true, pLit, Option.map_some']

/-- One member read: the name, the colon, the value, and what follows decides. -/
theorem pMembers_step (pv : Parser Value) (n : Nat) (k : String) (v : Value)
    (txt : List Char) (c2 : Char) (tl : List Char)
    (hread : pv (txt ++ c2 :: tl) = some (v, c2 :: tl)) (hc2 : isWs c2 = false) :
    pMembers pv (n + 1) (encString k ++ colon :: (txt ++ c2 :: tl)) =
      if c2 = comma then (pMembers pv n tl).map fun r => ((k.data, v) :: r.1, r.2)
      else if c2 = rbrace then some ([(k.data, v)], tl)
      else none := by
  rw [encString_append]
  simp only [pMembers, skipWs_cons quote _ (by decide), if_true, pChars_body,
    skipWs_cons colon _ (by decide), hread, skipWs_cons c2 tl hc2]

theorem length_encMembers (m : String × List Char) (ms : List (String × List Char))
    (rest : List Char) : ms.length < (encMembers m ms ++ rest).length := by
  induction ms generalizing m with
  | nil => simp [encMembers, encString]
  | cons m2 ms ih =>
    have := ih m2
    simp only [encMembers, List.length_append, List.length_cons] at this ⊢
    omega

/-- The members of an encoded struct read back, given that each value reads back. -/
theorem pMembers_enc (pv : Parser Value) (m : String × Value × List Char)
    (ms : List (String × Value × List Char))
    (h : ∀ x ∈ m :: ms, Reads pv x.2.1 x.2.2) (rest : List Char) (n : Nat)
    (hn : ms.length < n) :
    pMembers pv n (encMembers (m.1, m.2.2) (ms.map fun x => (x.1, x.2.2)) ++ rest) =
      some ((m :: ms).map fun x => (x.1.data, x.2.1), rest) := by
  induction ms generalizing m n with
  | nil =>
    cases n with
    | zero => simp at hn
    | succ n =>
      have hread := h m (by simp) (rbrace :: rest) (stops_rbrace rest)
      have hstep := pMembers_step pv n m.1 m.2.1 m.2.2 rbrace rest hread (by decide)
      simp only [List.map, encMembers, List.append_assoc, List.cons_append, List.nil_append]
      rw [hstep]
      simp only [show rbrace ≠ comma by decide, if_false, if_true]
  | cons m2 ms ih =>
    cases n with
    | zero => simp at hn
    | succ n =>
      have hlt : ms.length < n := by simpa using hn
      have ih2 := ih m2 (fun x hx => h x (by simp [List.mem_cons] at hx ⊢; tauto)) n hlt
      have hread := h m (by simp)
        (comma :: (encMembers (m2.1, m2.2.2) (ms.map fun x => (x.1, x.2.2)) ++ rest))
        (stops_comma _)
      have hstep := pMembers_step pv n m.1 m.2.1 m.2.2 comma _ hread (by decide)
      simp only [List.map, encMembers, List.append_assoc, List.cons_append]
      rw [hstep]
      simp only [if_true, ih2, Option.map_some', List.map]

/-- An encoded struct reads back as the object of its members, given that each value
reads back one level down. -/
theorem reads_object (depth : Nat) (m : String × Value × List Char)
    (ms : List (String × Value × List Char))
    (h : ∀ x ∈ m :: ms, Reads (parseValue depth) x.2.1 x.2.2) :
    Reads (parseValue (depth + 1)) (.object ((m :: ms).map fun x => (x.1.data, x.2.1)))
      (encObject ((m :: ms).map fun x => (x.1, x.2.2))) := by
  intro rest _
  obtain ⟨tl, htl⟩ : ∃ tl, encMembers (m.1, m.2.2) (ms.map fun x => (x.1, x.2.2)) ++ rest =
      quote :: tl := by
    cases ms with
    | nil => exact ⟨_, rfl⟩
    | cons m2 ms => exact ⟨_, rfl⟩
  have hlen : ms.length <
      (encMembers (m.1, m.2.2) (ms.map fun x => (x.1, x.2.2)) ++ rest).length := by
    have := length_encMembers (m.1, m.2.2) (ms.map fun x => (x.1, x.2.2)) rest
    rwa [List.length_map] at this
  have hm := pMembers_enc (parseValue depth) m ms h rest _ hlen
  show parseValue (depth + 1)
    (lbrace :: (encMembers (m.1, m.2.2) (ms.map fun x => (x.1, x.2.2)) ++ rest)) = _
  simp only [parseValue, skipWs_cons lbrace _ (by decide), if_true, pObject]
  rw [htl] at hm ⊢
  simp only [skipWs_cons quote _ (by decide), show quote ≠ rbrace by decide, if_false, hm,
    Option.map_some']

/-- One element read, and what follows decides. -/
theorem pElems_step (pv : Parser Value) (n : Nat) (v : Value) (txt : List Char) (c : Char)
    (tl : List Char) (hread : pv (txt ++ c :: tl) = some (v, c :: tl))
    (hc : isWs c = false) :
    pElems pv (n + 1) (txt ++ c :: tl) =
      if c = comma then (pElems pv n tl).map fun r => (v :: r.1, r.2)
      else if c = rbracket then some ([v], tl)
      else none := by
  simp only [pElems, hread, skipWs_cons c tl hc]

theorem length_encElems (e : List Char) (es : List (List Char)) (rest : List Char) :
    es.length < (encElems e es ++ rest).length := by
  induction es generalizing e with
  | nil => simp [encElems]
  | cons e2 es ih =>
    have := ih e2
    simp only [encElems, List.length_append, List.length_cons] at this ⊢
    omega

/-- The elements of an encoded slice read back, given that each one reads back. -/
theorem pElems_enc (pv : Parser Value) (e : Value × List Char) (es : List (Value × List Char))
    (h : ∀ x ∈ e :: es, Reads pv x.1 x.2) (rest : List Char) (n : Nat) (hn : es.length < n) :
    pElems pv n (encElems e.2 (es.map Prod.snd) ++ rest) =
      some ((e :: es).map Prod.fst, rest) := by
  induction es generalizing e n with
  | nil =>
    cases n with
    | zero => simp at hn
    | succ n =>
      have hread := h e (by simp) (rbracket :: rest) (stops_rbracket rest)
      have hstep := pElems_step pv n e.1 e.2 rbracket rest hread (by decide)
      simp only [List.map, encElems, List.append_assoc, List.cons_append, List.nil_append]
      rw [hstep]
      simp only [show rbracket ≠ comma by decide, if_false, if_true]
  | cons e2 es ih =>
    cases n with
    | zero => simp at hn
    | succ n =>
      have hlt : es.length < n := by simpa using hn
      have ih2 := ih e2 (fun x hx => h x (by simp [List.mem_cons] at hx ⊢; tauto)) n hlt
      have hread := h e (by simp) (comma :: (encElems e2.2 (es.map Prod.snd) ++ rest))
        (stops_comma _)
      have hstep := pElems_step pv n e.1 e.2 comma _ hread (by decide)
      simp only [List.map, encElems, List.append_assoc, List.cons_append]
      rw [hstep]
      simp only [if_true, ih2, Option.map_some', List.map]

/-- An encoded slice reads back as the array of its elements, given that each element
is an object that reads back one level down. -/
theorem reads_array (depth : Nat) (e : Value × List Char) (es : List (Value × List Char))
    (h : ∀ x ∈ e :: es, Reads (parseValue depth) x.1 x.2)
    (hhead : ∃ tl, e.2 = lbrace :: tl) :
    Reads (parseValue (depth + 1)) (.array ((e :: es).map Prod.fst))
      (encArray ((e :: es).map Prod.snd)) := by
  intro rest _
  obtain ⟨tl0, h0⟩ := hhead
  obtain ⟨tl, htl⟩ : ∃ tl, encElems e.2 (es.map Prod.snd) ++ rest = lbrace :: tl := by
    cases es with
    | nil => exact ⟨tl0 ++ [rbracket] ++ rest, by
        simp only [List.map, encElems, h0, List.cons_append]⟩
    | cons e2 es => exact ⟨tl0 ++ comma :: encElems e2.2 (es.map Prod.snd) ++ rest, by
        simp only [List.map, encElems, h0, List.cons_append]⟩
  have hlen : es.length < (encElems e.2 (es.map Prod.snd) ++ rest).length := by
    have := length_encElems e.2 (es.map Prod.snd) rest
    rwa [List.length_map] at this
  have hm := pElems_enc (parseValue depth) e es h rest _ hlen
  show parseValue (depth + 1) (lbracket :: (encElems e.2 (es.map Prod.snd) ++ rest)) = _
  simp only [parseValue, skipWs_cons lbracket _ (by decide), show lbracket ≠ lbrace by decide,
    if_false, if_true, pArray]
  rw [htl] at hm ⊢
  simp only [skipWs_cons lbrace _ (by decide), show lbrace ≠ rbracket by decide, if_false, hm,
    Option.map_some']

/-! ### The structs -/

theorem reads_delivery (depth : Nat) (d : Delivery) :
    Reads (parseValue (depth + 1)) (objectOf (deliveryMembers d)) (encDelivery d) := by
  refine reads_object depth _ _ ?_
  intro x hx
  simp only [List.mem_cons, List.mem_singleton, List.not_mem_nil, or_false] at hx
  rcases hx with rfl | rfl | rfl | rfl | rfl | rfl | rfl <;> exact reads_string depth _

theorem reads_payment (depth : Nat) (p : Payment) :
    Reads (parseValue (depth + 1)) (objectOf (paymentMembers p)) (encPayment p) := by
  refine reads_object depth _ _ ?_
  intro x hx
  simp only [List.mem_cons, List.mem_singleton, List.not_mem_nil, or_false] at hx
  rcases hx with rfl | rfl | rfl | rfl | rfl | rfl | rfl | rfl | rfl | rfl <;>
    first | exact reads_string depth _ | exact reads_int depth _

theorem reads_item (depth : Nat) (it : Item) :
    Reads (parseValue (depth + 1)) (objectOf (itemMembers it)) (encItem it) := by
  refine reads_object depth _ _ ?_
  intro x hx
  simp only [List.mem_cons, List.mem_singleton, List.not_mem_nil, or_false] at hx
  rcases hx with rfl | rfl | rfl | rfl | rfl | rfl | rfl | rfl | rfl | rfl | rfl <;>
    first | exact reads_string depth _ | exact reads_int depth _

theorem reads_items (depth : Nat) (its : List Item) :
    Reads (parseValue (depth + 2)) (itemsValue its) (encItems its) := by
  cases its with
  | nil => exact reads_null _
  | cons it its =>
    have h := reads_array (depth + 1) (objectOf (itemMembers it), encItem it)
      (its.map fun x => (objectOf (itemMembers x), encItem x))
      (by
        intro x hx
        simp only [List.mem_cons, List.mem_map] at hx
        rcases hx with rfl | ⟨y, _, rfl⟩ <;> exact reads_item depth _)
      ⟨_, rfl⟩
    simp only [List.map, List.map_map] at h
    exact h

theorem reads_order (depth : Nat) (o : Order) :
    Reads (parseValue (depth + 3)) (objectOf (orderMembers o)) (encOrder o) := by
  refine reads_object (depth + 2) _ _ ?_
  intro x hx
  simp only [List.mem_cons, List.mem_singleton, List.not_mem_nil, or_false] at hx
  rcases hx with rfl | rfl | rfl | rfl | rfl | rfl | rfl | rfl | rfl | rfl | rfl | rfl |
    rfl | rfl
  all_goals first
    | exact reads_string _ _
    | exact reads_int _ _
    | exact reads_delivery (depth + 1) _
    | exact reads_payment (depth + 1) _
    | exact reads_items depth _

/-- The document written for an order parses to the object of the order's members. -/
theorem parseDocument_encOrder (o : Order) :
    parseDocument (encOrder o) = some (objectOf (orderMembers o)) := by
  have h := reads_order 9997 o [] (Or.inl rfl)
  rw [List.append_nil] at h
  have hd : maxDepth = 9997 + 3 := rfl
  simp only [parseDocument, hd, h, skipWs, if_true]

/-! ### Decoding the parsed value -/

theorem unmarshalDelivery_members (d old : Delivery) :
    unmarshalDelivery (objectOf (deliveryMembers d)) old = .ok d := by
  cases d
  rfl

theorem unmarshalPayment_members (p old : Payment) :
    unmarshalPayment (objectOf (paymentMembers p)) old = .ok p := by
  have t0 : matchField paymentTags "transaction".data = some 0 := rfl
  have t1 : matchField paymentTags "request_id".data = some 1 := rfl
  have t2 : matchField paymentTags "currency".data = some 2 := rfl
  have t3 : matchField paymentTags "provider".data = some 3 := rfl
  have t4 : matchField paymentTags "amount".data = some 4 := rfl
  have t5 : matchField paymentTags "payment_dt".data = some 5 := rfl
  have t6 : matchField paymentTags "bank".data = some 6 := rfl
  have t7 : matchField paymentTags "delivery_cost".data = some 7 := rfl
  have t8 : matchField paymentTags "goods_total".data = some 8 := rfl
  have t9 : matchField paymentTags "custom_fee".data = some 9 := rfl
  cases p
  simp only [objectOf, paymentMembers, List.map, unmarshalPayment, setAll, setPayment,
    t0, t1, t2, t3, t4, t5, t6, t7, t8, t9, unmarshalString, unmarshalInt, intOfLit_encInt,
    Except.map]

theorem unmarshalItem_members (it old : Item) :
    unmarshalItem (objectOf (itemMembers it)) old = .ok it := by
  have t0 : matchField itemTags "chrt_id".data = some 0 := rfl
  have t1 : matchField itemTags "track_number".data = some 1 := rfl
  have t2 : matchField itemTags "price".data = some 2 := rfl
  have t3 : matchField itemTags "rid".data = some 3 := rfl
  have t4 : matchField itemTags "name".data = some 4 := rfl
  have t5 : matchField itemTags "sale".data = some 5 := rfl
  have t6 : matchField itemTags "size".data = some 6 := rfl
  have t7 : matchField itemTags "total_price".data = some 7 := rfl
  have t8 : matchField itemTags "nm_id".data = some 8 := rfl
  have t9 : matchField itemTags "brand".data = some 9 := rfl
  have t10 : matchField itemTags "status".data = some 10 := rfl
  cases it
  simp only [objectOf, itemMembers, List.map, unmarshalItem, setAll, setItem,
    t0, t1, t2, t3, t4, t5, t6, t7, t8, t9, t10, unmarshalString, unmarshalInt,
    intOfLit_encInt, Except.map]

theorem unmarshalElems_members (its old : List Item) :
    unmarshalElems (its.map fun x => objectOf (itemMembers x)) old = .ok its := by
  induction its generalizing old with
  | nil => rfl
  | cons it its ih =>
    simp only [List.map, unmarshalElems, unmarshalItem_members, ih]

theorem unmarshalItems_value (its old : List Item) :
    unmarshalItems (itemsValue its) old = .ok its := by
  cases its with
  | nil => rfl
  | cons it its =>
    exact unmarshalElems_members (it :: its) old

theorem unmarshalOrder_members (o old : Order) :
    unmarshalOrder (objectOf (orderMembers o)) old = .ok o := by
  have t0 : matchField orderTags "order_uid".data = some 0 := rfl
  have t1 : matchField orderTags "track_number".data = some 1 := rfl
  have t2 : matchField orderTags "entry".data = some 2 := rfl
  have t3 : matchField orderTags "delivery".data = some 3 := rfl
  have t4 : matchField orderTags "payment".data = some 4 := rfl
  have t5 : matchField orderTags "items".data = some 5 := rfl
  have t6 : matchField orderTags "locale".data = some 6 := rfl
  have t7 : matchField orderTags "internal_signature".data = some 7 := rfl
  have t8 : matchField orderTags "customer_id".data = some 8 := rfl
  have t9 : matchField orderTags "delivery_service".data = some 9 := rfl
  have t10 : matchField orderTags "shardkey".data = some 10 := rfl
  have t11 : matchField orderTags "sm_id".data = some 11 := rfl
  have t12 : matchField orderTags "date_created".data = some 12 := rfl
  have t13 : matchField orderTags "oof_shard".data = some 13 := rfl
  have hD : ∀ x, unmarshalDelivery (objectOf (deliveryMembers o.Delivery)) x = .ok o.Delivery :=
    unmarshalDelivery_members o.Delivery
  have hP : ∀ x, unmarshalPayment (objectOf (paymentMembers o.Payment)) x = .ok o.Payment :=
    unmarshalPayment_members o.Payment
  have hI : ∀ x, unmarshalItems (itemsValue o.Items) x = .ok o.Items :=
    unmarshalItems_value o.Items
  simp only [orderMembers]
  generalize objectOf (deliveryMembers o.Delivery) = vd at hD ⊢
  generalize objectOf (paymentMembers o.Payment) = vp at hP ⊢
  generalize itemsValue o.Items = vi at hI ⊢
  simp only [objectOf, List.map, unmarshalOrder, setAll, setOrder,
    t0, t1, t2, t3, t4, t5, t6, t7, t8, t9, t10, t11, t12, t13, unmarshalString,
    unmarshalInt, intOfLit_encInt, Except.map, hD, hP, hI]

end Json

/-- Decoding the document written for an order gives the order back. -/
theorem jsonParse_jsonDoc (order : Order) : jsonParse (jsonDoc order) = .ok order := by
  simp only [jsonParse, jsonDoc, Json.parseDocument_encOrder, Json.unmarshalOrder_members]

theorem jsonCodec_unmarshal_eq (data : String) : jsonCodec.unmarshal data = jsonParse data :=
  rfl

theorem jsonCodec_unmarshal_jsonDoc (order : Order) :
    jsonCodec.unmarshal (jsonDoc order) = .ok order := by
  rw [jsonCodec_unmarshal_eq]
  exact jsonParse_jsonDoc order

theorem jsonCodec_marshal (order : Order) :
    jsonCodec.marshal order = .ok (jsonDoc order) :=
  rfl

/-- The payload of example scenario 2, with whitespace between its tokens, decodes to
`orderX2`: members that are absent leave their fields at the zero value. -/
theorem jsonCodec_unmarshal_scenario2 :
    jsonCodec.unmarshal
        "\x7b \"order_uid\": \"X2\", \"delivery\": \x7b\"name\": \"\", \"phone\": \"+1000\", \"zip\": \"90210\"\x7d\x7d"
      = .ok orderX2 := by
  rw [jsonCodec_unmarshal_eq]
  unfold jsonParse
  rfl

theorem jsonCodec_roundTripsOn (order : Order) : RoundTripsOn jsonCodec order := by
  intro doc h
  rw [jsonCodec_marshal] at h
  rw [← Except.ok.inj h]
  exact jsonCodec_unmarshal_jsonDoc order

theorem jsonCodec_roundTripsOnDecoded : RoundTripsOnDecoded jsonCodec :=
  fun _ order _ => jsonCodec_roundTripsOn order

/-! ## The table -/

theorem DB.count_eq_zero_iff (db : DB) (k : String) :
    db.count k = 0 ↔ db.rows.lookup k = none := by
  unfold DB.count
  rw [List.countP_eq_zero, List.lookup_eq_none_iff]
  constructor
  · intro h p hp
    have := h p hp
    simp only [decide_eq_true_eq] at this
    simp only [bne_iff_ne, ne_eq]
    exact fun e => this e.symm
  · intro h p hp
    have := h p hp
    simp only [bne_iff_ne, ne_eq] at this
    simp only [decide_eq_true_eq]
    exact fun e => this e.symm

theorem lookup_append_fresh (rows : List (String × String)) (k doc : String)
    (h : rows.lookup k = none) : (rows ++ [(k, doc)]).lookup k = some doc := by
  rw [List.lookup_append, h]
  simp

theorem lookup_append_of_some (rows more : List (String × String)) (k doc : String)
    (h : rows.lookup k = some doc) : (rows ++ more).lookup k = some doc := by
  rw [List.lookup_append, h]
  rfl

theorem lookup_append_other (rows : List (String × String)) (k k2 doc : String)
    (h : k2 ≠ k) : (rows ++ [(k, doc)]).lookup k2 = rows.lookup k2 := by
  rw [List.lookup_append]
  have hb : (k2 == k) = false := beq_eq_false_iff_ne.mpr h
  have : [(k, doc)].lookup k2 = none := by
    simp only [List.lookup_cons, hb, List.lookup_nil]
  rw [this]
  cases rows.lookup k2 <;> rfl

theorem DB.count_append_fresh (db : DB) (k doc : String) (h : db.rows.lookup k = none) :
    ({ rows := db.rows ++ [(k, doc)] } : DB).count k = 1 := by
  have h0 := (DB.count_eq_zero_iff db k).mpr h
  unfold DB.count at h0 ⊢
  simp [List.countP_append, h0]

/-! ## Store functions -/

theorem DB.execInsert_cases (db : DB) (fault : Option String) (k doc : String) :
    (∃ e, db.execInsert fault k doc = .error e) ∨
      (fault = none ∧ db.rows.lookup k = none ∧
        db.execInsert fault k doc = .ok { rows := db.rows ++ [(k, doc)] }) := by
  unfold DB.execInsert
  cases fault with
  | some msg => exact Or.inl ⟨msg, rfl⟩
  | none =>
    cases hl : db.rows.lookup k with
    | none => exact Or.inr ⟨rfl, rfl, by simp⟩
    | some d =>
      exact Or.inl ⟨"pq: duplicate key value violates unique constraint", by simp⟩

/-- Every run of `saveOrderToDB` either returns an error and leaves the table as it
was, or finds the key free, encodes the order, appends the row and returns `nil`. -/
theorem saveOrderToDB_cases (codec : Codec) (faults : Faults) (db : DB) (order : Order) :
    ((saveOrderToDB codec faults db order).1 = db ∧
        ∃ err, (saveOrderToDB codec faults db order).2 = some err) ∨
      (db.rows.lookup order.OrderUID = none ∧
        ∃ doc, codec.marshal order = .ok doc ∧
          saveOrderToDB codec faults db order =
            ({ rows := db.rows ++ [(order.OrderUID, doc)] }, none)) := by
  unfold saveOrderToDB
  simp only
  split
  · exact Or.inl ⟨rfl, _, rfl⟩
  · split
    · exact Or.inl ⟨rfl, _, rfl⟩
    · cases hm : codec.marshal order with
      | error e => exact Or.inl ⟨rfl, _, rfl⟩
      | ok doc =>
        rcases DB.execInsert_cases db faults.onInsert order.OrderUID doc with
          ⟨e, he⟩ | ⟨_, hfree, hok⟩
        · dsimp only
          rw [he]
          exact Or.inl ⟨rfl, _, rfl⟩
        · dsimp only
          rw [hok]
          exact Or.inr ⟨hfree, doc, rfl, rfl⟩

/-- With the backend answering, a free key and an encodable order, `saveOrderToDB`
appends the row and returns `nil`. -/
theorem saveOrderToDB_fresh (codec : Codec) (db : DB) (order : Order) (doc : String)
    (hfree : db.rows.lookup order.OrderUID = none) (hm : codec.marshal order = .ok doc) :
    saveOrderToDB codec {} db order =
      ({ rows := db.rows ++ [(order.OrderUID, doc)] }, none) := by
  simp [saveOrderToDB, getFromDB, DB.queryRow, DB.execInsert, hfree, hm]

/-- On a key that is taken, `saveOrderToDB` returns an error and leaves the table as
it was. -/
theorem saveOrderToDB_taken (codec : Codec) (faults : Faults) (db : DB) (order : Order)
    (doc : String) (h : db.rows.lookup order.OrderUID = some doc) :
    (saveOrderToDB codec faults db order).1 = db ∧
      ∃ err, (saveOrderToDB codec faults db order).2 = some err := by
  rcases saveOrderToDB_cases codec faults db order with hcase | ⟨hfree, _⟩
  · exact hcase
  · rw [hfree] at h
    cases h

theorem saveOrderToDB_eq_of_taken (codec : Codec) (faults : Faults) (db : DB)
    (order : Order) (doc : String) (h : db.rows.lookup order.OrderUID = some doc) :
    ∃ err, saveOrderToDB codec faults db order = (db, some err) := by
  obtain ⟨h1, err, h2⟩ := saveOrderToDB_taken codec faults db order doc h
  exact ⟨err, Prod.ext h1 h2⟩

/-- The function `getFromDB` returns an order with a `nil` error exactly when the
backend answers, the key has a row, and the document of its first row decodes to
that order. -/
theorem getFromDB_ok_iff (codec : Codec) (fault : Option String) (db : DB) (uid : String)
    (o : Order) :
    getFromDB codec fault db uid = (o, none) ↔
      fault = none ∧ ∃ doc, db.rows.lookup uid = some doc ∧ codec.unmarshal doc = .ok o := by
  unfold getFromDB DB.queryRow
  cases fault with
  | some msg => simp
  | none =>
    cases hl : db.rows.lookup uid with
    | none => simp
    | some doc =>
      cases hd : codec.unmarshal doc with
      | error e => simp [hd]
      | ok o2 => simp [hd]

/-- With the backend answering and the stored document decoding to an order with a
non-empty `OrderUID`, `saveOrderToDB` returns the "already exists" error and leaves
the table as it was. -/
theorem saveOrderToDB_already_exists (codec : Codec) (faults : Faults) (db : DB)
    (order : Order) (doc : String) (existing : Order) (hq : faults.onQuery = none)
    (hl : db.rows.lookup order.OrderUID = some doc) (hdec : codec.unmarshal doc = .ok existing)
    (huid : existing.OrderUID ≠ "") :
    saveOrderToDB codec faults db order =
      (db, some ("order with ID " ++ order.OrderUID ++ " already exists in the database")) := by
  simp [saveOrderToDB, getFromDB, DB.queryRow, hq, hl, hdec, huid]

/-- C3, as stated, fails: with the scenario-1 order already stored, a second
`saveOrderToDB` of the same valid order returns an error to its caller. -/
theorem duplicate_save_returns_error :
    validateOrder orderX1 = .ok () ∧
      dbX1.rows.lookup orderX1.OrderUID = some (jsonDoc orderX1) ∧
      saveOrderToDB jsonCodec {} dbX1 orderX1 =
        (dbX1, some "order with ID X1 already exists in the database") :=
  ⟨rfl, rfl, saveOrderToDB_already_exists jsonCodec {} dbX1 orderX1 (jsonDoc orderX1) orderX1
    rfl rfl (jsonCodec_unmarshal_jsonDoc orderX1) (by decide)⟩

/-- C3, amended: when the `OrderUID` of the order is already stored, `saveOrderToDB`
leaves the table as it was and returns an error to its caller; when moreover the
backend answers the lookup and the stored document decodes to an order with a
non-empty `OrderUID`, that error is the "already exists" one. -/
theorem saveOrderToDB_duplicate (codec : Codec) (faults : Faults) (db : DB) (order : Order)
    (hstored : db.count order.OrderUID ≠ 0) :
    (saveOrderToDB codec faults db order).1 = db ∧
      (∃ err, (saveOrderToDB codec faults db order).2 = some err) ∧
      (∀ doc existing, faults.onQuery = none →
        db.rows.lookup order.OrderUID = some doc → codec.unmarshal doc = .ok existing →
        existing.OrderUID ≠ "" →
        (saveOrderToDB codec faults db order).2 =
          some ("order with ID " ++ order.OrderUID ++ " already exists in the database")) := by
  have hne : db.rows.lookup order.OrderUID ≠ none :=
    fun h => hstored ((DB.count_eq_zero_iff db order.OrderUID).mpr h)
  obtain ⟨doc, hdoc⟩ := Option.ne_none_iff_exists'.mp hne
  obtain ⟨h1, h2⟩ := saveOrderToDB_taken codec faults db order doc hdoc
  refine ⟨h1, h2, ?_⟩
  intro doc2 existing hq hl hdec huid
  rw [saveOrderToDB_already_exists codec faults db order doc2 existing hq hl hdec huid]

/-- The scenario-1 order saved a second time into the table that holds it. -/
theorem saveOrderToDB_duplicate_witness :
    (saveOrderToDB jsonCodec {} dbX1 orderX1).1 = dbX1 ∧
      (saveOrderToDB jsonCodec {} dbX1 orderX1).2 =
        some ("order with ID " ++ orderX1.OrderUID ++ " already exists in the database") :=
  ⟨(saveOrderToDB_duplicate jsonCodec {} dbX1 orderX1 (by decide)).1,
   (saveOrderToDB_duplicate jsonCodec {} dbX1 orderX1 (by decide)).2.2
      (jsonDoc orderX1) orderX1 rfl rfl (jsonCodec_unmarshal_jsonDoc orderX1) (by decide)⟩

/-- After a successful `saveOrderToDB`, `getFromDB` finds the document that was
written and decodes it; with a codec that round-trips the order, the result is the
order. -/
theorem getFromDB_after_save_of_roundTrips (codec : Codec) (faults : Faults) (db : DB)
    (order : Order) (hrt : RoundTripsOn codec order)
    (hsave : (saveOrderToDB codec faults db order).2 = none) :
    getFromDB codec none (saveOrderToDB codec faults db order).1 order.OrderUID
        = (order, none) ∧
      (∃ doc, codec.marshal order = .ok doc ∧
        (saveOrderToDB codec faults db order).1.rows.lookup order.OrderUID = some doc) ∧
      db.count order.OrderUID = 0 ∧
      (saveOrderToDB codec faults db order).1.count order.OrderUID = 1 := by
  rcases saveOrderToDB_cases codec faults db order with ⟨_, err, he⟩ | ⟨hfree, doc, hm, hres⟩
  · rw [he] at hsave
    cases hsave
  · rw [hres]
    refine ⟨?_, ⟨doc, hm, lookup_append_fresh db.rows order.OrderUID doc hfree⟩,
      (DB.count_eq_zero_iff db order.OrderUID).mpr hfree,
      DB.count_append_fresh db order.OrderUID doc hfree⟩
    simp only [getFromDB, DB.queryRow, lookup_append_fresh db.rows order.OrderUID doc hfree,
      hrt doc hm]

/-- C6: with `encoding/json` as modelled by `jsonCodec`, if `saveOrderToDB` succeeds
on an order, then the table holds the document `json.Marshal` writes for the order
under the order's `OrderUID`, and `getFromDB` with that `OrderUID` (the backend
answering) returns exactly the order that was saved - every field, `Delivery`,
`Payment` and the items in their order - with a `nil` error. The success implies
that the `OrderUID` had no row before, and afterwards it has exactly one. -/
theorem getFromDB_after_save (faults : Faults) (db : DB) (order : Order)
    (hsave : (saveOrderToDB jsonCodec faults db order).2 = none) :
    getFromDB jsonCodec none (saveOrderToDB jsonCodec faults db order).1 order.OrderUID
        = (order, none) ∧
      (saveOrderToDB jsonCodec faults db order).1.rows.lookup order.OrderUID
        = some (jsonDoc order) ∧
      jsonCodec.unmarshal (jsonDoc order) = .ok order ∧
      db.count order.OrderUID = 0 ∧
      (saveOrderToDB jsonCodec faults db order).1.count order.OrderUID = 1 := by
  obtain ⟨h1, ⟨doc, hm, hl⟩, h3, h4⟩ := getFromDB_after_save_of_roundTrips jsonCodec faults db
    order (jsonCodec_roundTripsOn order) hsave
  rw [jsonCodec_marshal] at hm
  rw [← Except.ok.inj hm] at hl
  exact ⟨h1, hl, jsonCodec_unmarshal_jsonDoc order, h3, h4⟩

/-- An order with payment data and two items, saved into an empty table and read
back. -/
theorem getFromDB_after_save_witness :
    getFromDB jsonCodec none (saveOrderToDB jsonCodec {} { rows := [] } orderX4).1
        orderX4.OrderUID = (orderX4, none) ∧
      (saveOrderToDB jsonCodec {} { rows := [] } orderX4).1.rows.lookup orderX4.OrderUID
        = some (jsonDoc orderX4) ∧
      jsonCodec.unmarshal (jsonDoc orderX4) = .ok orderX4 ∧
      ({ rows := [] } : DB).count orderX4.OrderUID = 0 ∧
      (saveOrderToDB jsonCodec {} { rows := [] } orderX4).1.count orderX4.OrderUID = 1 :=
  getFromDB_after_save {} { rows := [] } orderX4
    (by rw [saveOrderToDB_fresh jsonCodec { rows := [] } orderX4 (jsonDoc orderX4) rfl
      (jsonCodec_marshal orderX4)])

/-! ## Validation -/

/-- An order passes validation exactly when the five mandatory fields are non-empty. -/
theorem validateOrder_ok_iff (o : Order) :
    validateOrder o = .ok () ↔
      o.OrderUID ≠ "" ∧ o.TrackNumber ≠ "" ∧ o.Delivery.Name ≠ "" ∧
        o.Delivery.Phone ≠ "" ∧ o.Delivery.Zip ≠ "" := by
  unfold validateOrder
  by_cases h1 : o.OrderUID = "" <;> by_cases h2 : o.TrackNumber = "" <;>
    by_cases h3 : o.Delivery.Name = "" <;> by_cases h4 : o.Delivery.Phone = "" <;>
    by_cases h5 : o.Delivery.Zip = "" <;> simp [h1, h2, h3, h4, h5]

/-- C1: `validateOrder` returns `nil` exactly when `OrderUID`, `TrackNumber`,
`Delivery.Name`, `Delivery.Phone` and `Delivery.Zip` are all non-empty; otherwise it
returns the violation of the first empty field in that order; and two orders that
agree on these five fields get the same result. -/
theorem validateOrder_spec (o : Order) :
    (validateOrder o = .ok () ↔
      o.OrderUID ≠ "" ∧ o.TrackNumber ≠ "" ∧ o.Delivery.Name ≠ "" ∧
        o.Delivery.Phone ≠ "" ∧ o.Delivery.Zip ≠ "") ∧
    (validateOrder o = .error "OrderUID field is required" ↔ o.OrderUID = "") ∧
    (validateOrder o = .error "TrackNumber field is required" ↔
      o.OrderUID ≠ "" ∧ o.TrackNumber = "") ∧
    (validateOrder o = .error "Delivery Name field is required" ↔
      o.OrderUID ≠ "" ∧ o.TrackNumber ≠ "" ∧ o.Delivery.Name = "") ∧
    (validateOrder o = .error "Delivery Phone field is required" ↔
      o.OrderUID ≠ "" ∧ o.TrackNumber ≠ "" ∧ o.Delivery.Name ≠ "" ∧
        o.Delivery.Phone = "") ∧
    (validateOrder o = .error "Delivery Zip field is required" ↔
      o.OrderUID ≠ "" ∧ o.TrackNumber ≠ "" ∧ o.Delivery.Name ≠ "" ∧
        o.Delivery.Phone ≠ "" ∧ o.Delivery.Zip = "") ∧
    (∀ o2 : Order, o2.OrderUID = o.OrderUID → o2.TrackNumber = o.TrackNumber →
      o2.Delivery.Name = o.Delivery.Name → o2.Delivery.Phone = o.Delivery.Phone →
      o2.Delivery.Zip = o.Delivery.Zip → validateOrder o2 = validateOrder o) := by
  refine ⟨validateOrder_ok_iff o, ?_, ?_, ?_, ?_, ?_, ?_⟩
  all_goals first
    | (intro o2 e1 e2 e3 e4 e5
       simp only [validateOrder, e1, e2, e3, e4, e5])
    | (unfold validateOrder
       by_cases h1 : o.OrderUID = "" <;> by_cases h2 : o.TrackNumber = "" <;>
        by_cases h3 : o.Delivery.Name = "" <;> by_cases h4 : o.Delivery.Phone = "" <;>
        by_cases h5 : o.Delivery.Zip = "" <;> simp [h1, h2, h3, h4, h5])

/-- The order of scenario 1 passes validation, and an order that differs from it only
outside the five mandatory fields gets the same result. -/
theorem validateOrder_spec_witness :
    validateOrder orderX1 = .ok () ∧
      validateOrder { orderX1 with Entry := "WBIL", SMID := 99 } = validateOrder orderX1 :=
  ⟨(validateOrder_spec orderX1).1.mpr (by decide),
   (validateOrder_spec orderX1).2.2.2.2.2.2 _ rfl rfl rfl rfl rfl⟩

/-- C9, as stated, fails: the decoded scenario-2 order is not rejected with the
`Delivery.Name` violation. -/
theorem scenario2_not_rejected_on_name :
    validateOrder orderX2 ≠ .error "Delivery Name field is required" := by
  simp [validateOrder, orderX2]

/-- C9, amended: the decoded scenario-2 order is rejected, and the reported violation
is the one of `TrackNumber`, which is empty and is checked before `Delivery.Name`. -/
theorem scenario2_rejected_on_track_number :
    validateOrder orderX2 = .error "TrackNumber field is required" := by
  simp [validateOrder, orderX2]

/-! ## The subscription handler -/

theorem validateOrder_error_of_empty (order : Order)
    (h : order.OrderUID = "" ∨ order.TrackNumber = "" ∨ order.Delivery.Name = "" ∨
      order.Delivery.Phone = "" ∨ order.Delivery.Zip = "") :
    ∃ err, validateOrder order = .error err := by
  cases hv : validateOrder order with
  | error err => exact ⟨err, rfl⟩
  | ok u =>
    have hall := (validateOrder_ok_iff order).mp hv
    rcases h with h | h | h | h | h
    · exact absurd h hall.1
    · exact absurd h hall.2.1
    · exact absurd h hall.2.2.1
    · exact absurd h hall.2.2.2.1
    · exact absurd h hall.2.2.2.2

/-- A handler run on a payload that decodes to a valid order whose key is free, with
the backend answering: the row is appended and the cache entry is set. -/
theorem handler_fresh (codec : Codec) (data : String) (order : Order) (doc : String)
    (st : State) (hdec : codec.unmarshal data = .ok order)
    (hvalid : validateOrder order = .ok ())
    (hm : codec.marshal order = .ok doc)
    (hfree : st.db.rows.lookup order.OrderUID = none) :
    handler codec {} data st =
      (.stored, { db := { rows := st.db.rows ++ [(order.OrderUID, doc)] },
                  cache := st.cache.set order.OrderUID order }) := by
  simp only [handler, hdec, hvalid, saveOrderToDB_fresh codec st.db order doc hfree hm]

/-- A handler run on a payload that decodes to a valid order whose key is taken:
`saveOrderToDB` fails and the state is left as it was. -/
theorem handler_taken (codec : Codec) (faults : Faults) (data : String) (order : Order)
    (doc : String) (st : State) (hdec : codec.unmarshal data = .ok order)
    (hvalid : validateOrder order = .ok ())
    (htaken : st.db.rows.lookup order.OrderUID = some doc) :
    ∃ err, handler codec faults data st = (.saveError err, st) := by
  obtain ⟨err, he⟩ := saveOrderToDB_eq_of_taken codec faults st.db order doc htaken
  exact ⟨err, by simp only [handler, hdec, hvalid, he]⟩

/-- C4: when the decoded order has one of `OrderUID`, `TrackNumber`, `Delivery.Name`,
`Delivery.Phone`, `Delivery.Zip` empty, the handler run ends on the "Invalid order"
path with the validation error, and the state - table and cache - is left as it
was, whatever the table, the cache and the backend do. -/
theorem handler_rejects_invalid (codec : Codec) (faults : Faults) (data : String)
    (order : Order) (st : State) (hdec : codec.unmarshal data = .ok order)
    (hempty : order.OrderUID = "" ∨ order.TrackNumber = "" ∨ order.Delivery.Name = "" ∨
      order.Delivery.Phone = "" ∨ order.Delivery.Zip = "") :
    ∃ err, validateOrder order = .error err ∧
      handler codec faults data st = (.invalid err, st) := by
  obtain ⟨err, he⟩ := validateOrder_error_of_empty order hempty
  exact ⟨err, he, by simp only [handler, hdec, he]⟩

/-- The scenario-2 payload delivered to the state that already holds scenario 1: it is
rejected and the state stays as it was. -/
theorem handler_rejects_invalid_witness :
    ∃ err, validateOrder orderX2 = .error err ∧
      handler jsonCodec {} (jsonDoc orderX2) stateX1 = (.invalid err, stateX1) :=
  handler_rejects_invalid jsonCodec {} (jsonDoc orderX2) orderX2 stateX1
    (jsonCodec_unmarshal_jsonDoc orderX2) (Or.inr (Or.inl rfl))

/-- C2: take a payload that decodes to a valid, encodable order whose `OrderUID` has
no row in the table. Run the handler on it with the backend answering, then run it
again (with the backend answering or not). The second run changes nothing: the state
after both runs is the state after the first, it has exactly one row under the
`OrderUID`, and the cache maps the `OrderUID` to the order. The first run ends on the
stored path, the second on the save-error path. -/
theorem handler_twice (codec : Codec) (faults : Faults) (data : String) (order : Order)
    (doc : String) (st : State) (hdec : codec.unmarshal data = .ok order)
    (hvalid : validateOrder order = .ok ())
    (hm : codec.marshal order = .ok doc)
    (habsent : st.db.count order.OrderUID = 0) :
    (handler codec faults data (handler codec {} data st).2).2 = (handler codec {} data st).2 ∧
      (handler codec faults data (handler codec {} data st).2).2.db.count order.OrderUID = 1 ∧
      (handler codec faults data (handler codec {} data st).2).2.cache order.OrderUID
        = some order ∧
      (handler codec {} data st).1 = .stored ∧
      ∃ err, (handler codec faults data (handler codec {} data st).2).1 = .saveError err := by
  have hfree := (DB.count_eq_zero_iff st.db order.OrderUID).mp habsent
  have h1 := handler_fresh codec data order doc st hdec hvalid hm hfree
  obtain ⟨err, h2⟩ := handler_taken codec faults data order doc
    { db := { rows := st.db.rows ++ [(order.OrderUID, doc)] },
      cache := st.cache.set order.OrderUID order } hdec hvalid
    (lookup_append_fresh st.db.rows order.OrderUID doc hfree)
  rw [h1]
  dsimp only
  rw [h2]
  exact ⟨rfl, DB.count_append_fresh st.db order.OrderUID doc hfree, by simp [Cache.set],
    rfl, err, rfl⟩

/-- Scenario 3: the scenario-1 payload delivered twice to a fresh process. -/
theorem handler_twice_witness :
    (handler jsonCodec {} (jsonDoc orderX1) (handler jsonCodec {} (jsonDoc orderX1)
        State.initial).2).2 = (handler jsonCodec {} (jsonDoc orderX1) State.initial).2 ∧
      (handler jsonCodec {} (jsonDoc orderX1) (handler jsonCodec {} (jsonDoc orderX1)
        State.initial).2).2.db.count orderX1.OrderUID = 1 ∧
      (handler jsonCodec {} (jsonDoc orderX1) (handler jsonCodec {} (jsonDoc orderX1)
        State.initial).2).2.cache orderX1.OrderUID = some orderX1 ∧
      (handler jsonCodec {} (jsonDoc orderX1) State.initial).1 = .stored ∧
      ∃ err, (handler jsonCodec {} (jsonDoc orderX1) (handler jsonCodec {}
        (jsonDoc orderX1) State.initial).2).1 = .saveError err :=
  handler_twice jsonCodec {} (jsonDoc orderX1) orderX1 (jsonDoc orderX1) State.initial
    (jsonCodec_unmarshal_jsonDoc orderX1) rfl (jsonCodec_marshal orderX1) rfl

/-- What a handler run does to the state: either nothing, on a path other than the
stored one, or the payload decodes to a valid order with a free key, whose row is
appended and whose cache entry is set. -/
theorem handler_cases (codec : Codec) (faults : Faults) (data : String) (st : State) :
    ((handler codec faults data st).2 = st ∧ (handler codec faults data st).1 ≠ .stored) ∨
      ∃ order doc, codec.unmarshal data = .ok order ∧ validateOrder order = .ok () ∧
        st.db.rows.lookup order.OrderUID = none ∧ codec.marshal order = .ok doc ∧
        saveOrderToDB codec faults st.db order =
          ({ rows := st.db.rows ++ [(order.OrderUID, doc)] }, none) ∧
        handler codec faults data st =
          (.stored, { db := { rows := st.db.rows ++ [(order.OrderUID, doc)] },
                      cache := st.cache.set order.OrderUID order }) := by
  cases hdec : codec.unmarshal data with
  | error e =>
    have h : handler codec faults data st = (.decodeError e, st) := by
      simp only [handler, hdec]
    rw [h]
    exact Or.inl ⟨rfl, by simp⟩
  | ok order =>
    cases hv : validateOrder order with
    | error e =>
      have h : handler codec faults data st = (.invalid e, st) := by
        simp only [handler, hdec, hv]
      rw [h]
      exact Or.inl ⟨rfl, by simp⟩
    | ok u =>
      rcases saveOrderToDB_cases codec faults st.db order with
        ⟨h1, err, h2⟩ | ⟨hfree, doc, hm, hres⟩
      · have he : saveOrderToDB codec faults st.db order = (st.db, some err) :=
          Prod.ext h1 h2
        have h : handler codec faults data st = (.saveError err, st) := by
          simp only [handler, hdec, hv, he]
        rw [h]
        exact Or.inl ⟨rfl, by simp⟩
      · have h : handler codec faults data st =
            (.stored, { db := { rows := st.db.rows ++ [(order.OrderUID, doc)] },
                        cache := st.cache.set order.OrderUID order }) := by
          simp only [handler, hdec, hv, hres]
        exact Or.inr ⟨order, doc, rfl, hv, hfree, hm, hres, h⟩

/-! ## The `/order` handler -/

/-- The document `[]` is JSON but not an object, so it does not decode into an
`Order`. -/
theorem jsonCodec_unmarshal_array :
    jsonCodec.unmarshal "[]" =
      .error "json: cannot unmarshal value into Go value of type main.Order" := by
  rw [jsonCodec_unmarshal_eq]
  unfold jsonParse
  rfl

/-- C5, as stated, fails: the table holds a row under the identifier and the cache
does not, yet the answer is 404 and the state stays as it was - once because the
backend does not answer the lookup, once because the stored document does not
decode. -/
theorem orderHandler_row_present_not_found :
    (dbX1.rows.lookup "X1" = some (jsonDoc orderX1) ∧
      orderHandler jsonCodec (some "connection refused") { query := [("order_uid", "X1")] }
          { db := dbX1, cache := Cache.empty } =
        ({ status := 404, body := "Order not found\n" },
          { db := dbX1, cache := Cache.empty })) ∧
    (dbArray.rows.lookup "X1" = some "[]" ∧
      orderHandler jsonCodec none { query := [("order_uid", "X1")] }
          { db := dbArray, cache := Cache.empty } =
        ({ status := 404, body := "Order not found\n" },
          { db := dbArray, cache := Cache.empty })) := by
  have hu : ({ query := [("order_uid", "X1")] } : Request).get "order_uid" = "X1" := rfl
  have hne : ("X1" : String) ≠ "" := by decide
  have hl : dbArray.rows.lookup "X1" = some "[]" := rfl
  refine ⟨⟨rfl, ?_⟩, ⟨rfl, ?_⟩⟩
  · simp only [orderHandler, hu, hne, if_false, Cache.empty, getFromDB, DB.queryRow, httpError]
    rfl
  · simp only [orderHandler, hu, hne, if_false, Cache.empty, getFromDB, DB.queryRow, hl,
      jsonCodec_unmarshal_array, httpError]
    rfl

/-- C5, amended: the `/order` handler answers 400 when `order_uid` is absent or empty;
otherwise 200 with the cached order when the cache has the identifier; otherwise,
when the backend answers the lookup, the table has a row under the identifier and
its document decodes to an order, 200 with that order, after which the cache maps
the identifier to that order and every other key as before; otherwise - the backend
does not answer, or there is no row, or the document does not decode - 404. The
table is never modified, and in the 400, 404 and cache-hit cases the whole state is
as before. -/
theorem orderHandler_spec (codec : Codec) (fault : Option String) (r : Request) (st : State) :
    (r.get "order_uid" = "" →
      orderHandler codec fault r st =
        ({ status := 400, body := "Missing order_uid parameter\n" }, st)) ∧
    (∀ o, r.get "order_uid" ≠ "" → st.cache (r.get "order_uid") = some o →
      orderHandler codec fault r st = (encodeOrder codec o, st)) ∧
    (∀ doc o, r.get "order_uid" ≠ "" → st.cache (r.get "order_uid") = none →
      fault = none → st.db.rows.lookup (r.get "order_uid") = some doc →
      codec.unmarshal doc = .ok o →
      (orderHandler codec fault r st).1 = encodeOrder codec o ∧
        (orderHandler codec fault r st).2.db = st.db ∧
        (orderHandler codec fault r st).2.cache (r.get "order_uid") = some o ∧
        ∀ k, k ≠ r.get "order_uid" →
          (orderHandler codec fault r st).2.cache k = st.cache k) ∧
    (r.get "order_uid" ≠ "" → st.cache (r.get "order_uid") = none →
      (fault ≠ none ∨ st.db.rows.lookup (r.get "order_uid") = none ∨
        ∃ doc e, st.db.rows.lookup (r.get "order_uid") = some doc ∧
          codec.unmarshal doc = .error e) →
      orderHandler codec fault r st = ({ status := 404, body := "Order not found\n" }, st)) ∧
    (∀ o, (encodeOrder codec o).status = 200 ∧
      ∀ doc, codec.marshal o = .ok doc → (encodeOrder codec o).body = doc ++ "\n") ∧
    (orderHandler codec fault r st).2.db = st.db := by
  refine ⟨?_, ?_, ?_, ?_, ?_, ?_⟩
  · intro h
    simp only [orderHandler, h, if_true, httpError]
    rfl
  · intro o hne hc
    simp only [orderHandler, hne, if_false, hc]
  · intro doc o hne hc hf hl hd
    have hg : getFromDB codec fault st.db (r.get "order_uid") = (o, none) :=
      (getFromDB_ok_iff codec fault st.db _ o).mpr ⟨hf, doc, hl, hd⟩
    have hres : orderHandler codec fault r st =
        (encodeOrder codec o,
          { db := st.db, cache := st.cache.set (r.get "order_uid") o }) := by
      simp only [orderHandler, hne, if_false, hc, hg]
    rw [hres]
    refine ⟨rfl, rfl, ?_, ?_⟩
    · simp only [Cache.set, if_true]
    · intro k hk
      simp only [Cache.set, hk, if_false]
  · intro hne hc hfail
    have hg : (getFromDB codec fault st.db (r.get "order_uid")).2 ≠ none := by
      intro hnone
      obtain ⟨hf, doc, hl, hd⟩ := (getFromDB_ok_iff codec fault st.db _
        (getFromDB codec fault st.db (r.get "order_uid")).1).mp (Prod.ext rfl hnone)
      rcases hfail with h | h | ⟨doc2, e, h, he⟩
      · exact h hf
      · rw [h] at hl
        cases hl
      · rw [h] at hl
        cases hl
        rw [he] at hd
        cases hd
    obtain ⟨e, he⟩ := Option.ne_none_iff_exists'.mp hg
    have hpair : getFromDB codec fault st.db (r.get "order_uid") =
        ((getFromDB codec fault st.db (r.get "order_uid")).1, some e) := Prod.ext rfl he
    simp only [orderHandler, hne, if_false, hc]
    rw [hpair]
    simp only [httpError]
    rfl
  · intro o
    unfold encodeOrder
    cases hm : codec.marshal o with
    | error e => exact ⟨rfl, fun doc h => by cases h⟩
    | ok d => exact ⟨rfl, fun doc h => by cases h; rfl⟩
  · unfold orderHandler
    dsimp only
    split
    · rfl
    · split
      · rfl
      · split <;> rfl

/-- A query for scenario 1 after a restart (empty cache, the order in the table): the
answer is the stored order, the table is as before, and the cache now holds the order
under `"X1"` and still nothing under `"X3"`. -/
theorem orderHandler_spec_witness :
    (orderHandler jsonCodec none { query := [("order_uid", "X1")] }
        { db := dbX1, cache := Cache.empty }).1 = encodeOrder jsonCodec orderX1 ∧
      (orderHandler jsonCodec none { query := [("order_uid", "X1")] }
        { db := dbX1, cache := Cache.empty }).2.db = dbX1 ∧
      (orderHandler jsonCodec none { query := [("order_uid", "X1")] }
        { db := dbX1, cache := Cache.empty }).2.cache "X1" = some orderX1 ∧
      (orderHandler jsonCodec none { query := [("order_uid", "X1")] }
        { db := dbX1, cache := Cache.empty }).2.cache "X3" = none :=
  have h := (orderHandler_spec jsonCodec none { query := [("order_uid", "X1")] }
      { db := dbX1, cache := Cache.empty }).2.2.1 (jsonDoc orderX1) orderX1 (by decide) rfl
    rfl rfl (jsonCodec_unmarshal_jsonDoc orderX1)
  ⟨h.1, h.2.1, h.2.2.1, h.2.2.2 "X3" (by decide)⟩

/-- What a `/order` run does to the state: either nothing, or the cache missed,
`getFromDB` returned an order and the cache entry for the identifier is set to it. -/
theorem orderHandler_cases (codec : Codec) (fault : Option String) (r : Request)
    (st : State) :
    (orderHandler codec fault r st).2 = st ∨
      ∃ o, st.cache (r.get "order_uid") = none ∧
        getFromDB codec fault st.db (r.get "order_uid") = (o, none) ∧
        (orderHandler codec fault r st).2 =
          { db := st.db, cache := st.cache.set (r.get "order_uid") o } := by
  unfold orderHandler
  dsimp only
  split
  · exact Or.inl rfl
  · split
    · exact Or.inl rfl
    · next hc =>
      split
      · exact Or.inl rfl
      · next o hg => exact Or.inr ⟨o, hc, hg, rfl⟩

/-! ## Steps of the system -/

/-- A step only ever appends rows to the table. -/
theorem step_rows (codec : Codec) (ev : Event) (st : State) :
    ∃ added, (step codec ev st).db.rows = st.db.rows ++ added := by
  cases ev with
  | message faults data =>
    show ∃ added, (handler codec faults data st).2.db.rows = st.db.rows ++ added
    rcases handler_cases codec faults data st with ⟨h, _⟩ | ⟨order, doc, _, _, _, _, _, h⟩
    · exact ⟨[], by rw [h, List.append_nil]⟩
    · exact ⟨[(order.OrderUID, doc)], by rw [h]⟩
  | request fault r =>
    show ∃ added, (orderHandler codec fault r st).2.db.rows = st.db.rows ++ added
    rcases orderHandler_cases codec fault r st with h | ⟨o, _, _, h⟩
    · exact ⟨[], by rw [h, List.append_nil]⟩
    · exact ⟨[], by rw [h, List.append_nil]⟩

/-- C7: stored orders are permanent. For every state and every step - a message
delivered to the handler, whatever its payload, or a request to `/order` - the rows of
the table before the step are an initial segment of the rows after it: every row is
still there with the same document, and a lookup that found a document finds the
same document. -/
theorem stored_rows_permanent (codec : Codec) (ev : Event) (st : State) :
    st.db.rows <+: (step codec ev st).db.rows ∧
      (∀ uid doc, (uid, doc) ∈ st.db.rows → (uid, doc) ∈ (step codec ev st).db.rows) ∧
      (∀ uid doc, st.db.rows.lookup uid = some doc →
        (step codec ev st).db.rows.lookup uid = some doc) := by
  obtain ⟨added, h⟩ := step_rows codec ev st
  rw [h]
  exact ⟨List.prefix_append _ _, fun uid doc hm => List.mem_append_left _ hm,
    fun uid doc hl => lookup_append_of_some _ _ _ _ hl⟩

/-- A second order arriving after scenario 1: the row of scenario 1 is still found. -/
theorem stored_rows_permanent_witness :
    (step jsonCodec (.message {} (jsonDoc orderX3)) stateX1).db.rows.lookup "X1" =
      some (jsonDoc orderX1) :=
  (stored_rows_permanent jsonCodec (.message {} (jsonDoc orderX3)) stateX1).2.2
    "X1" (jsonDoc orderX1) rfl

/-! ## Acknowledgement -/

theorem ack_not_mem_saveOrderToDBEffects (codec : Codec) (faults : Faults) (db : DB)
    (order : Order) : Effect.ack ∉ saveOrderToDBEffects codec faults db order := by
  unfold saveOrderToDBEffects
  dsimp only
  split
  · simp
  · split
    · simp
    · split <;> simp

/-- No path of the callback acknowledges the message. -/
theorem ack_not_mem_handlerEffects (codec : Codec) (faults : Faults) (data : String)
    (st : State) : Effect.ack ∉ handlerEffects codec faults data st := by
  unfold handlerEffects
  split
  · simp
  · split
    · simp
    · intro h
      rcases List.mem_append.mp h with h | h
      · exact ack_not_mem_saveOrderToDBEffects codec faults st.db _ h
      · revert h
        split <;> simp

/-- Every path of the callback does something observable. -/
theorem handlerEffects_ne_nil (codec : Codec) (faults : Faults) (data : String)
    (st : State) : handlerEffects codec faults data st ≠ [] := by
  unfold handlerEffects
  split
  · simp
  · split
    · simp
    · intro h
      have h2 := (List.append_eq_nil.mp h).2
      revert h2
      split <;> simp

/-- Whenever the callback got as far as `saveOrderToDB`, the `SELECT` is the first
thing in its trace. -/
theorem select_head_handlerEffects (codec : Codec) (faults : Faults) (data : String)
    (st : State) (order : Order) (hdec : codec.unmarshal data = .ok order)
    (hvalid : validateOrder order = .ok ()) :
    (handlerEffects codec faults data st).head? = some (.select order.OrderUID) := by
  simp only [handlerEffects, hdec, hvalid]
  unfold saveOrderToDBEffects
  dsimp only
  split
  · rfl
  · split
    · rfl
    · split <;> rfl

/-- C8, as stated, fails: a message whose `saveOrderToDB` fails on a backend error
(not a duplicate) is acknowledged all the same, after the failed lookup and the log
line, and nothing has been persisted. -/
theorem deliver_acks_failed_save :
    (deliver subscriptionOptions jsonCodec { onQuery := some "connection refused" }
        (jsonDoc orderX1) State.initial).outcome =
      .saveError "error checking if order exists in database: connection refused" ∧
    (deliver subscriptionOptions jsonCodec { onQuery := some "connection refused" }
        (jsonDoc orderX1) State.initial).acked = true ∧
    (deliver subscriptionOptions jsonCodec { onQuery := some "connection refused" }
        (jsonDoc orderX1) State.initial).state.db.rows = [] ∧
    (deliver subscriptionOptions jsonCodec { onQuery := some "connection refused" }
        (jsonDoc orderX1) State.initial).trace =
      [.select "X1",
       .log ("Error saving order to database: " ++
         "error checking if order exists in database: connection refused"),
       .ack] := by
  have hv : validateOrder orderX1 = .ok () := rfl
  have hs : saveOrderToDB jsonCodec { onQuery := some "connection refused" }
      State.initial.db orderX1 =
        (State.initial.db,
          some "error checking if order exists in database: connection refused") := by
    simp [saveOrderToDB, getFromDB, DB.queryRow, errText]
  have hse : saveOrderToDBEffects jsonCodec { onQuery := some "connection refused" }
      State.initial.db orderX1 = [.select "X1"] := by
    simp [saveOrderToDBEffects, getFromDB, DB.queryRow]
    rfl
  have hh : handler jsonCodec { onQuery := some "connection refused" } (jsonDoc orderX1)
      State.initial =
        (.saveError "error checking if order exists in database: connection refused",
          State.initial) := by
    simp only [handler, jsonCodec_unmarshal_jsonDoc, hv, hs]
  have he : handlerEffects jsonCodec { onQuery := some "connection refused" }
      (jsonDoc orderX1) State.initial =
        [.select "X1",
         .log ("Error saving order to database: " ++
           "error checking if order exists in database: connection refused")] := by
    simp only [handlerEffects, jsonCodec_unmarshal_jsonDoc, hv, hs, hse]
    rfl
  have hopts : subscriptionOptions.ManualAcks = false := rfl
  refine ⟨?_, ?_, ?_, ?_⟩
  · show (handler jsonCodec { onQuery := some "connection refused" } (jsonDoc orderX1)
      State.initial).1 = _
    rw [hh]
  · show decide (Effect.ack ∈ handlerEffects jsonCodec { onQuery := some "connection refused" }
      (jsonDoc orderX1) State.initial ++
        (if subscriptionOptions.ManualAcks then [] else [Effect.ack])) = true
    rw [he, hopts]
    simp
  · show (handler jsonCodec { onQuery := some "connection refused" } (jsonDoc orderX1)
      State.initial).2.db.rows = []
    rw [hh]
    rfl
  · show handlerEffects jsonCodec { onQuery := some "connection refused" }
      (jsonDoc orderX1) State.initial ++
        (if subscriptionOptions.ManualAcks then [] else [Effect.ack]) = _
    rw [he, hopts]
    rfl

/-- C8, amended: on the subscription as the program opens it, the trace of every
delivery is the trace of the handler run followed by one acknowledgement - whatever
path the run took, a failed `saveOrderToDB` included. The handler run itself
never acknowledges and always does something first (when it reaches `saveOrderToDB`,
it starts with the `SELECT`), so the acknowledgement is the last effect and the only
one of its kind. The outcome and the state are those of the handler run; and had
the subscription been opened in manual mode, nothing would acknowledge. -/
theorem deliver_always_acks (codec : Codec) (faults : Faults) (data : String) (st : State) :
    (deliver subscriptionOptions codec faults data st).trace =
        handlerEffects codec faults data st ++ [Effect.ack] ∧
      Effect.ack ∉ handlerEffects codec faults data st ∧
      handlerEffects codec faults data st ≠ [] ∧
      (deliver subscriptionOptions codec faults data st).trace.count Effect.ack = 1 ∧
      (deliver subscriptionOptions codec faults data st).acked = true ∧
      (deliver subscriptionOptions codec faults data st).outcome =
        (handler codec faults data st).1 ∧
      (deliver subscriptionOptions codec faults data st).state =
        (handler codec faults data st).2 ∧
      (∀ order, codec.unmarshal data = .ok order → validateOrder order = .ok () →
        (deliver subscriptionOptions codec faults data st).trace.head? =
          some (.select order.OrderUID)) ∧
      (∀ opts : SubscriptionOptions,
        (deliver opts codec faults data st).acked = !opts.ManualAcks) := by
  have hno := ack_not_mem_handlerEffects codec faults data st
  have hne := handlerEffects_ne_nil codec faults data st
  have htrace : (deliver subscriptionOptions codec faults data st).trace =
      handlerEffects codec faults data st ++ [Effect.ack] := rfl
  refine ⟨htrace, hno, hne, ?_, ?_, rfl, rfl, ?_, ?_⟩
  · rw [htrace, List.count_append, List.count_eq_zero_of_not_mem hno]
    rfl
  · show decide (Effect.ack ∈ (deliver subscriptionOptions codec faults data st).trace) = true
    rw [htrace]
    simp
  · intro order hdec hvalid
    rw [htrace]
    have hh := select_head_handlerEffects codec faults data st order hdec hvalid
    cases hl : handlerEffects codec faults data st with
    | nil => exact absurd hl hne
    | cons e es =>
      rw [hl] at hh
      exact hh
  · intro opts
    show decide (Effect.ack ∈ handlerEffects codec faults data st ++
      (if opts.ManualAcks then [] else [Effect.ack])) = !opts.ManualAcks
    cases hm : opts.ManualAcks with
    | true => simp [hno]
    | false => simp

/-! ## Coherence of cache and table -/

theorem tableWellFormed_append (codec : Codec) (db : DB) (order : Order) (doc : String)
    (hw : TableWellFormed codec db) (hfree : db.rows.lookup order.OrderUID = none)
    (hdoc : codec.unmarshal doc = .ok order) (hvalid : validateOrder order = .ok ()) :
    TableWellFormed codec { rows := db.rows ++ [(order.OrderUID, doc)] } := by
  intro k d hl
  by_cases hk : k = order.OrderUID
  · subst hk
    have := lookup_append_fresh db.rows order.OrderUID doc hfree
    dsimp only at hl
    rw [this] at hl
    cases hl
    exact ⟨order, hdoc, rfl, hvalid⟩
  · dsimp only at hl
    rw [lookup_append_other db.rows order.OrderUID k doc hk] at hl
    exact hw k d hl

/-- One step keeps the table well-formed and the cache coherent, for a codec that
round-trips the orders it decodes. -/
theorem step_coherent (codec : Codec) (hc : RoundTripsOnDecoded codec) (ev : Event)
    (st : State) (hw : TableWellFormed codec st.db) (hcoh : CacheCoherent codec st) :
    TableWellFormed codec (step codec ev st).db ∧ CacheCoherent codec (step codec ev st) := by
  cases ev with
  | message faults data =>
    show TableWellFormed codec (handler codec faults data st).2.db ∧
      CacheCoherent codec (handler codec faults data st).2
    rcases handler_cases codec faults data st with
      ⟨h, _⟩ | ⟨order, doc, hdec, hvalid, hfree, hm, _, h⟩
    · rw [h]
      exact ⟨hw, hcoh⟩
    · rw [h]
      have hdoc : codec.unmarshal doc = .ok order := hc data order hdec doc hm
      refine ⟨tableWellFormed_append codec st.db order doc hw hfree hdoc hvalid, ?_⟩
      intro k o hk
      by_cases hku : k = order.OrderUID
      · subst hku
        have ho : o = order := by
          simpa [Cache.set] using hk.symm
        subst ho
        exact ⟨rfl, hvalid, doc, lookup_append_fresh st.db.rows _ doc hfree, hdoc⟩
      · have hold : st.cache k = some o := by
          simpa [Cache.set, hku] using hk
        obtain ⟨h1, h2, d, h3, h4⟩ := hcoh k o hold
        exact ⟨h1, h2, d, lookup_append_of_some st.db.rows _ k d h3, h4⟩
  | request fault r =>
    show TableWellFormed codec (orderHandler codec fault r st).2.db ∧
      CacheCoherent codec (orderHandler codec fault r st).2
    rcases orderHandler_cases codec fault r st with h | ⟨o, _, hg, h⟩
    · rw [h]
      exact ⟨hw, hcoh⟩
    · rw [h]
      refine ⟨hw, ?_⟩
      obtain ⟨_, doc, hl, hdoc⟩ := (getFromDB_ok_iff codec fault st.db _ o).mp hg
      obtain ⟨o2, hdoc2, huid, hvalid⟩ := hw _ doc hl
      have ho : o2 = o := by
        rw [hdoc] at hdoc2
        exact (Except.ok.inj hdoc2).symm
      subst ho
      intro k o3 hk
      by_cases hku : k = r.get "order_uid"
      · subst hku
        have ho3 : o3 = o2 := by
          simpa [Cache.set] using hk.symm
        subst ho3
        exact ⟨huid, hvalid, doc, hl, hdoc⟩
      · have hold : st.cache k = some o3 := by
          simpa [Cache.set, hku] using hk
        exact hcoh k o3 hold

theorem run_coherent (codec : Codec) (hc : RoundTripsOnDecoded codec) (evs : List Event)
    (st : State) (hw : TableWellFormed codec st.db) (hcoh : CacheCoherent codec st) :
    TableWellFormed codec (run codec evs st).db ∧ CacheCoherent codec (run codec evs st) := by
  induction evs generalizing st with
  | nil => exact ⟨hw, hcoh⟩
  | cons ev evs ih =>
    obtain ⟨hw2, hcoh2⟩ := step_coherent codec hc ev st hw hcoh
    exact ih (step codec ev st) hw2 hcoh2

theorem initial_coherent (codec : Codec) :
    TableWellFormed codec State.initial.db ∧ CacheCoherent codec State.initial :=
  And.intro (fun _ _ h => by cases h) (fun _ _ h => by cases h)

/-- C10: for a codec that round-trips the orders it decodes, in every state reached
from the empty table and the empty cache by any sequence of handler and `/order`
steps, every cache entry `(k, o)` has `o.OrderUID = k`, passes `validateOrder`, and is
backed by a row under `k` whose document decodes to `o` (so `getFromDB` on `k` returns
`o`). The cache changes only on the stored path of the handler, after `saveOrderToDB`
returned `nil`, and on a `/order` cache miss for which `getFromDB` returned an order;
a handler run that ends on any other path leaves the whole state as it was. -/
theorem cache_coherent (codec : Codec) (hc : RoundTripsOnDecoded codec) (evs : List Event) :
    (∀ k o, (run codec evs State.initial).cache k = some o →
      o.OrderUID = k ∧ validateOrder o = .ok () ∧
        (∃ doc, (run codec evs State.initial).db.rows.lookup k = some doc ∧
          codec.unmarshal doc = .ok o) ∧
        getFromDB codec none (run codec evs State.initial).db k = (o, none)) ∧
    (∀ faults data st, (handler codec faults data st).1 ≠ .stored →
      (handler codec faults data st).2 = st) ∧
    (∀ faults data st, (handler codec faults data st).1 = .stored →
      ∃ order, codec.unmarshal data = .ok order ∧
        (saveOrderToDB codec faults st.db order).2 = none ∧
        (handler codec faults data st).2.cache = st.cache.set order.OrderUID order) ∧
    (∀ fault r st, (orderHandler codec fault r st).2.cache = st.cache ∨
      ∃ o, getFromDB codec fault st.db (r.get "order_uid") = (o, none) ∧
        (orderHandler codec fault r st).2.cache = st.cache.set (r.get "order_uid") o) := by
  refine ⟨?_, ?_, ?_, ?_⟩
  · intro k o hk
    obtain ⟨_, hcoh⟩ := run_coherent codec hc evs State.initial
      (initial_coherent codec).1 (initial_coherent codec).2
    obtain ⟨h1, h2, doc, h3, h4⟩ := hcoh k o hk
    exact ⟨h1, h2, ⟨doc, h3, h4⟩,
      (getFromDB_ok_iff codec none _ k o).mpr ⟨rfl, doc, h3, h4⟩⟩
  · intro faults data st hne
    rcases handler_cases codec faults data st with ⟨h, _⟩ | ⟨_, _, _, _, _, _, _, h⟩
    · exact h
    · rw [h] at hne
      exact absurd rfl hne
  · intro faults data st hs
    rcases handler_cases codec faults data st with
      ⟨_, hne⟩ | ⟨order, doc, hdec, _, _, _, hres, h⟩
    · exact absurd hs hne
    · exact ⟨order, hdec, by rw [hres], by rw [h]⟩
  · intro fault r st
    rcases orderHandler_cases codec fault r st with h | ⟨o, _, hg, h⟩
    · exact Or.inl (by rw [h])
    · exact Or.inr ⟨o, hg, by rw [h]⟩

/-- Scenario 1 delivered to a fresh process leads to `stateX1`. -/
theorem run_scenario1 :
    run jsonCodec [.message {} (jsonDoc orderX1)] State.initial = stateX1 := by
  show (handler jsonCodec {} (jsonDoc orderX1) State.initial).2 = stateX1
  rw [handler_fresh jsonCodec (jsonDoc orderX1) orderX1 (jsonDoc orderX1) State.initial
    (jsonCodec_unmarshal_jsonDoc orderX1) rfl (jsonCodec_marshal orderX1) rfl]
  rfl

/-- After scenario 1 has been ingested, the cache entry under `"X1"` is coherent with
the table. -/
theorem cache_coherent_witness :
    orderX1.OrderUID = "X1" ∧ validateOrder orderX1 = .ok () ∧
      (∃ doc, (run jsonCodec [.message {} (jsonDoc orderX1)] State.initial).db.rows.lookup
          "X1" = some doc ∧ jsonCodec.unmarshal doc = .ok orderX1) ∧
      getFromDB jsonCodec none
        (run jsonCodec [.message {} (jsonDoc orderX1)] State.initial).db "X1" =
          (orderX1, none) :=
  (cache_coherent jsonCodec jsonCodec_roundTripsOnDecoded
      [.message {} (jsonDoc orderX1)]).1 "X1" orderX1
    (by rw [run_scenario1]; simp [stateX1, Cache.set])

end L0
